import Mathlib

/-! musicLib: verification of the service and query-building layer.

Shallow embedding of `pkg/service/service.go` and `pkg/postgres/postgres.go`.

Modelling conventions
* A Go `string` is a sequence of bytes; it is modelled as `List Char`, one `Char` per byte.
* A Go `int` is a 64-bit two's-complement integer; it is modelled as an `Int` in
  `[-2^63, 2^63)` and every product or sum that can leave that range is wrapped by `wrapInt`.
-/

set_option autoImplicit false
set_option linter.dupNamespace false

namespace MusicLib

/-- Go `string`, a byte sequence (one `Char` per byte). -/
abbrev GoString := List Char

/-- Wrap-around of a mathematical integer into the range of a 64-bit Go `int`. -/
def wrapInt (x : Int) : Int := (x + 2 ^ 63) % 2 ^ 64 - 2 ^ 63

/-! ## `GetTextByPage` (service.go, lines 264-279) -/

/-- The `for i := 0; i < len(textByte)-1; i++` loop of `GetTextByPage`, run on the bytes from
position `i` on, with the current value of `verses`.  The byte at the last position is never
visited (`i < len-1`); `c` is `textByte[i]` and `d` is `textByte[i+1]`.  The counter `verses` is
incremented at most `len(text)` times, so `verses++` never leaves the `int` range. -/
def GetTextByPage.loop (pageSize page : Int) : Int → GoString → GoString
  | _, [] => []
  | _, [_] => []
  | verses, c :: d :: rest =>
    let out : GoString :=
      if verses ≥ wrapInt (pageSize * wrapInt (page - 1)) ∧ verses < wrapInt (page * pageSize)
      then [c] else []
    let verses' : Int := if c = '\n' then (if d = '\n' then verses + 1 else verses) else verses
    out ++ GetTextByPage.loop pageSize page verses' (d :: rest)

/-- `GetTextByPage(text, pageSize, page)`: the bytes collected by the loop, started with
`verses = 0` at position `0`. -/
def GetTextByPage (text : GoString) (pageSize page : Int) : GoString :=
  GetTextByPage.loop pageSize page 0 text

/-! ### Specification-side notions for the paginator -/

/-- Position `j` starts a blank-line boundary: `text[j] = '\n'` and `text[j+1] = '\n'`. -/
def isBoundaryAt (text : GoString) (j : Nat) : Bool :=
  text[j]? = some '\n' && text[j + 1]? = some '\n'

/-- Verse counter of position `i`: the number of `j < i` that start a blank-line boundary. -/
def verseCounter (text : GoString) (i : Nat) : Nat :=
  ((List.range i).filter (isBoundaryAt text)).length

/-- Number of blank-line boundaries of the whole text. -/
def boundaryCount (text : GoString) : Nat := verseCounter text text.length

/-- The characters, in text order, at the positions `i` of `start, start+1, .., start+n-1` whose
verse counter lies in `[lo, hi)`. -/
def pageCharsFrom (text : GoString) (lo hi : Int) (start n : Nat) : GoString :=
  (List.range' start n).filterMap fun i =>
    if lo ≤ (verseCounter text i : Int) ∧ (verseCounter text i : Int) < hi then text[i]? else none

/-- The characters, in text order, at the positions `i < n` whose verse counter lies in
`[lo, hi)`. -/
def pageChars (text : GoString) (lo hi : Int) (n : Nat) : GoString :=
  pageCharsFrom text lo hi 0 n

/-- Concatenation of the paginator's output over the pages `1, 2, .., n`. -/
def concatPages (text : GoString) (pageSize : Int) (n : Nat) : GoString :=
  ((List.range' 1 n).map fun (p : Nat) => GetTextByPage text pageSize (p : Int)).flatten

/-- Number of verses: blocks separated by blank-line boundaries. -/
def verseCount (text : GoString) : Nat := boundaryCount text + 1

/-- Number of pages of `pageSize` verses: `ceil(verseCount / pageSize)`. -/
def pageCount (text : GoString) (pageSize : Nat) : Nat :=
  (verseCount text + pageSize - 1) / pageSize

/-- The claim "nothing is removed other than line breaks", as a Boolean check: `out` is
obtained from `orig` by deleting some characters, all of them line breaks. -/
def onlyLineBreaksRemoved (orig out : GoString) : Bool :=
  out.isSublist orig && (out.filter (· ≠ '\n') == orig.filter (· ≠ '\n'))

/-! ## Data model and errors -/

/-- `models.Song` (models/models.go). -/
structure Song where
  Group : GoString
  Song : GoString
  Text : GoString
  ReleaseDate : GoString
  Link : GoString
  deriving DecidableEq

/-- The error values of the service and storage layers.  `numError s` is the `*strconv.NumError`
that `strconv.Atoi(s)` returns; `driver msg` is any error coming from the database driver. -/
inductive Error where
  | invalidDate
  | invalidLink
  | noText
  | invalidPage
  | invalidPageSize
  | invalidYear
  | songAlreadyInDB
  | songNotFound
  | changedColumns
  | numError (num : GoString)
  | driver (msg : GoString)
  deriving DecidableEq

deriving instance DecidableEq for Except

/-- Go `map[string]string`, as the list of its entries (keys pairwise distinct). -/
abbrev Filters := List (GoString × GoString)

/-- The filter key `"release_date"`. -/
def releaseDateKey : GoString := "release_date".toList

/-- The filter key `"link"`. -/
def linkKey : GoString := "link".toList

/-- Go slice: `none` is the `nil` slice. -/
abbrev Slice (α : Type) := Option (List α)

/-! ## Standard-library functions used by the service -/

/-- Value of a decimal digit byte (`ch - '0'`). -/
def digitVal (c : Char) : Nat := c.toNat - 48

/-- Value of a non-empty string of decimal digits; `none` for the empty string or when some byte
is not a digit. -/
def parseDigits (s : GoString) : Option Nat :=
  if s = [] then none
  else if s.all Char.isDigit then some (s.foldl (fun n c => 10 * n + digitVal c) 0)
  else none

/-- `strconv.Atoi` for a 64-bit `int`: an optional sign `+` or `-`, then one or more decimal
digits, and the value has to lie in `[-2^63, 2^63)`; anything else is a `NumError`. -/
def Atoi (s : GoString) : Except Error Int :=
  let body : GoString :=
    match s with
    | '-' :: r => r
    | '+' :: r => r
    | _ => s
  let neg : Bool := s.head? = some '-'
  match parseDigits body with
  | none => .error (.numError s)
  | some n =>
    if neg then (if n ≤ 2 ^ 63 then .ok (-(n : Int)) else .error (.numError s))
    else (if n < 2 ^ 63 then .ok (n : Int) else .error (.numError s))

/-- `strings.Split(s, sep)` for a one-byte separator: the pieces between the separators, in
order; a string without separator gives one piece. -/
def Split (sep : Char) : GoString → List GoString
  | [] => [[]]
  | c :: rest =>
    if c = sep then [] :: Split sep rest
    else
      match Split sep rest with
      | [] => [[c]]
      | hd :: tl => (c :: hd) :: tl

/-- `strings.TrimSuffix(s, suffix)`. -/
def TrimSuffix (s suffix : GoString) : GoString :=
  if suffix.isSuffixOf s then s.take (s.length - suffix.length) else s

/-- `%d` of `fmt.Sprintf` for a non-negative number. -/
def itoa (n : Nat) : GoString := (Nat.repr n).toList

/-! ### `time.Parse(time.DateOnly, value)`

The layout `time.DateOnly` is `"2006-01-02"`: a four-digit year, `-`, a two-digit month, `-`,
a two-digit day, and nothing after it. -/

/-- `isLeap` of package `time`. -/
def isLeap (year : Nat) : Bool := year % 4 = 0 && (year % 100 ≠ 0 || year % 400 = 0)

/-- `daysIn(month, year)` of package `time`. -/
def daysIn (month year : Nat) : Nat :=
  if month = 2 then (if isLeap year then 29 else 28)
  else if month = 4 ∨ month = 6 ∨ month = 9 ∨ month = 11 then 30
  else 31

/-- Layout element `2006` (`stdLongYear`): at least four bytes, the first four all digits. -/
def parseLongYear (value : GoString) : Option (Nat × GoString) :=
  if value.length < 4 then none
  else
    match parseDigits (value.take 4) with
    | none => none
    | some year => some (year, value.drop 4)

/-- `getnum(s, true)`, for the layout elements `01` and `02`: exactly two digits are required. -/
def getnumFixed (s : GoString) : Option (Nat × GoString) :=
  match s with
  | a :: b :: rest =>
    if a.isDigit && b.isDigit then some (digitVal a * 10 + digitVal b, rest) else none
  | _ => none

/-- `skip(value, "-")`: the literal `-` of the layout. -/
def skipDash (value : GoString) : Option GoString :=
  match value with
  | c :: rest => if c = '-' then some rest else none
  | [] => none

/-- `time.Parse(time.DateOnly, value)`: the parsed year, month and day, or `none` when `Parse`
returns an error. -/
def timeParseDateOnly (value : GoString) : Option (Nat × Nat × Nat) :=
  match parseLongYear value with
  | none => none
  | some (year, v1) =>
    match skipDash v1 with
    | none => none
    | some v2 =>
      match getnumFixed v2 with
      | none => none
      | some (month, v3) =>
        if month ≤ 0 ∨ 12 < month then none
        else
          match skipDash v3 with
          | none => none
          | some v4 =>
            match getnumFixed v4 with
            | none => none
            | some (day, v5) =>
              if v5 ≠ [] then none
              else if day < 1 ∨ day > daysIn month year then none
              else some (year, month, day)

/-! ## Validation utilities (service.go, lines 244-262) -/

/-- `CheckDate(date)`. -/
def CheckDate (date : GoString) : Bool :=
  match Split '.' date with
  | [d, m, y] => (timeParseDateOnly (y ++ "-".toList ++ m ++ "-".toList ++ d)).isSome
  | _ => false

/-- The fields of `url.URL` that `CheckLink` reads. -/
structure URL where
  Scheme : GoString
  Host : GoString

/-- What the service takes from outside the repository: `url.Parse` of package `net/url`
(`none` when it returns an error) and the current year `time.Now().Year()`. -/
structure Env where
  urlParse : GoString → Option URL
  yearNow : Int

/-- `CheckLink(link)`. -/
def CheckLink (env : Env) (link : GoString) : Bool :=
  match env.urlParse link with
  | none => false
  | some parseURL => parseURL.Scheme ≠ [] && parseURL.Host ≠ []

/-! ### Specification-side notions for dates -/

/-- Decimal digit character of `k < 10`. -/
def digitChar (k : Nat) : Char := Char.ofNat (48 + k)

/-- Two-digit, zero-padded decimal rendering. -/
def pad2 (n : Nat) : GoString := [digitChar (n / 10 % 10), digitChar (n % 10)]

/-- Four-digit, zero-padded decimal rendering. -/
def pad4 (n : Nat) : GoString :=
  [digitChar (n / 1000 % 10), digitChar (n / 100 % 10), digitChar (n / 10 % 10), digitChar (n % 10)]

/-- Leap years of the Gregorian calendar. -/
def leapYear (y : Nat) : Prop := 4 ∣ y ∧ (¬ 100 ∣ y ∨ 400 ∣ y)

instance (y : Nat) : Decidable (leapYear y) := by unfold leapYear; infer_instance

/-- Number of days of month `m` (1 = January) in year `y` of the Gregorian calendar. -/
def daysInMonth (y m : Nat) : Nat :=
  match m with
  | 1 => 31
  | 2 => if leapYear y then 29 else 28
  | 3 => 31
  | 4 => 30
  | 5 => 31
  | 6 => 30
  | 7 => 31
  | 8 => 31
  | 9 => 30
  | 10 => 31
  | 11 => 30
  | 12 => 31
  | _ => 0

/-- The string `v` is `YYYY-MM-DD` for a real calendar date: day `d` of month `m` of year `y`
exists. -/
def denotesCalendarDate (v : GoString) : Prop :=
  ∃ y m d : Nat, y ≤ 9999 ∧ 1 ≤ m ∧ m ≤ 12 ∧ 1 ≤ d ∧ d ≤ daysInMonth y m ∧
    v = pad4 y ++ "-".toList ++ pad2 m ++ "-".toList ++ pad2 d

/-! ## Storage port (postgres.go, `DBInterface`) -/

/-- The storage port `postgres.DBInterface` over a store of type `σ`: every method returns its
Go results and the store after the call. -/
structure DBInterface (σ : Type) where
  GetSongsByFilterDB : Filters → Int → Int → σ → (Slice Song × Option Error) × σ
  SearchSongByIDDB : Int → σ → (Song × Option Error) × σ
  DeleteSongByIDDB : Int → σ → Option Error × σ
  ChangeSongByIDDB : Int → Song → σ → Option Error × σ
  AddSongDB : Song → σ → Option Error × σ

/-- One call of a storage-port method, with its arguments. -/
inductive Call where
  | GetSongsByFilterDB (filters : Filters) (limit offset : Int)
  | SearchSongByIDDB (id : Int)
  | DeleteSongByIDDB (id : Int)
  | ChangeSongByIDDB (id : Int) (song : Song)
  | AddSongDB (song : Song)
  deriving DecidableEq

/-- The store together with the record of the storage-port calls made so far. -/
structure World (σ : Type) where
  db : σ
  calls : List Call
  deriving DecidableEq

/-! ## Catalog service (service.go) -/

section Service

variable {σ : Type}

/-- Lines 63-67 of `GetSongsByFilter`: the entries with an empty value are deleted. -/
def dropEmpty (filters : Filters) : Filters := filters.filter fun kv => kv.2 ≠ []

/-- Lines 70-79 of `GetSongsByFilter`: `true` when the year check returns `invalidYear`. -/
def yearCheckFails (env : Env) (filters : Filters) : Bool :=
  match filters.lookup releaseDateKey with
  | some year =>
    match Atoi year with
    | .error _ => true
    | .ok yearInt => yearInt > env.yearNow
  | none => false

/-- Line 81 of `GetSongsByFilter`: `true` when the link check returns `invalidLink`. -/
def linkCheckFails (env : Env) (filters : Filters) : Bool :=
  match filters.lookup linkKey with
  | some link => !CheckLink env link
  | none => false

/-- `Service.GetSongsByFilter(filters, pageSize, page)`. -/
def GetSongsByFilter (env : Env) (repo : DBInterface σ) (filters : Filters)
    (pageSize page : GoString) (w : World σ) : (Slice Song × Option Error) × World σ :=
  match Atoi page with
  | .error _ => ((none, some .invalidPage), w)
  | .ok offset =>
    if offset ≤ 0 then ((none, some .invalidPage), w)
    else
      match Atoi pageSize with
      | .error _ => ((none, some .invalidPageSize), w)
      | .ok limit =>
        if limit ≤ 0 then ((none, some .invalidPageSize), w)
        else
          let offset := wrapInt (wrapInt (offset - 1) * limit)
          let filters := dropEmpty filters
          if yearCheckFails env filters then ((none, some .invalidYear), w)
          else if linkCheckFails env filters then ((none, some .invalidLink), w)
          else
            let r := repo.GetSongsByFilterDB filters limit offset w.db
            let w' : World σ :=
              { db := r.2, calls := w.calls ++ [Call.GetSongsByFilterDB filters limit offset] }
            match r.1.2 with
            | some _ => ((none, none), w')
            | none => ((r.1.1, none), w')

/-- `Service.GetTextByID(songID, pageSize, page)`. -/
def GetTextByID (repo : DBInterface σ) (songID pageSize page : GoString) (w : World σ) :
    (GoString × Option Error) × World σ :=
  match Atoi pageSize with
  | .error _ => (([], some .invalidPageSize), w)
  | .ok pageSizeInt =>
    if pageSizeInt ≤ 0 then (([], some .invalidPageSize), w)
    else
      match Atoi page with
      | .error _ => (([], some .invalidPage), w)
      | .ok pageInt =>
        if pageInt ≤ 0 then (([], some .invalidPage), w)
        else
          match Atoi songID with
          | .error err => (([], some err), w)
          | .ok id =>
            let r := repo.SearchSongByIDDB id w.db
            let w' : World σ := { db := r.2, calls := w.calls ++ [Call.SearchSongByIDDB id] }
            match r.1.2 with
            | some err => (([], some err), w')
            | none =>
              let text := GetTextByPage r.1.1.Text pageSizeInt pageInt
              if text.length = 0 then (([], some .noText), w') else ((text, none), w')

/-- `Service.DeleteSongByID(songID)`. -/
def DeleteSongByID (repo : DBInterface σ) (songID : GoString) (w : World σ) :
    Option Error × World σ :=
  match Atoi songID with
  | .error err => (some err, w)
  | .ok id =>
    let r := repo.DeleteSongByIDDB id w.db
    (r.1, { db := r.2, calls := w.calls ++ [Call.DeleteSongByIDDB id] })

/-- `Service.ChangeSongByID(songID, song)`. -/
def ChangeSongByID (env : Env) (repo : DBInterface σ) (songID : GoString) (song : Song)
    (w : World σ) : Option Error × World σ :=
  match Atoi songID with
  | .error err => (some err, w)
  | .ok id =>
    if !CheckDate song.ReleaseDate then (some .invalidDate, w)
    else if !CheckLink env song.Link then (some .invalidLink, w)
    else
      let r := repo.ChangeSongByIDDB id song w.db
      (r.1, { db := r.2, calls := w.calls ++ [Call.ChangeSongByIDDB id song] })

/-- `Service.AddSong(song)`. -/
def AddSong (env : Env) (repo : DBInterface σ) (song : Song) (w : World σ) :
    Option Error × World σ :=
  if !CheckDate song.ReleaseDate then (some .invalidDate, w)
  else if !CheckLink env song.Link then (some .invalidLink, w)
  else
    let r := repo.AddSongDB song w.db
    (r.1, { db := r.2, calls := w.calls ++ [Call.AddSongDB song] })

end Service

/-! ## Query builder (postgres.go, lines 36-60) -/

/-- A positional argument handed to `conn.Query`: a filter value or `limit`/`offset`. -/
inductive Arg where
  | str (s : GoString)
  | int (n : Int)
  deriving DecidableEq

/-- The variables `query`, `values` and `placeholderNum` of `GetSongsByFilterDB`.  The counter
`placeholderNum` is at most the number of filters plus one, so it never leaves the `int` range. -/
structure QueryState where
  query : GoString
  values : List Arg
  placeholderNum : Nat

/-- Body of `for k, v := range filters` (lines 43-52) for one entry. -/
def filterStep (st : QueryState) (kv : GoString × GoString) : QueryState :=
  if kv.1 = releaseDateKey then
    { st with query := st.query ++ (kv.1 ++ " LIKE '%".toList ++ kv.2 ++ "' AND ".toList) }
  else
    { query := st.query ++ (kv.1 ++ "=$".toList ++ itoa st.placeholderNum ++ " AND ".toList)
      values := st.values ++ [Arg.str kv.2]
      placeholderNum := st.placeholderNum + 1 }

/-- The fixed start of the query text. -/
def selectText : GoString :=
  "SELECT group_name, song_name, song_text, release_date, link FROM songs".toList

/-- Lines 38-57 of `GetSongsByFilterDB`: the query text and the argument list handed to
`conn.Query`, for the filter entries taken in the iteration order `filters`. -/
def GetSongsByFilterDBQuery (filters : Filters) (limit offset : Int) : GoString × List Arg :=
  let st0 : QueryState := { query := selectText, values := [], placeholderNum := 1 }
  let st : QueryState :=
    if filters.length ≠ 0 then
      let st1 := filters.foldl filterStep { st0 with query := st0.query ++ " WHERE ".toList }
      { st1 with query := TrimSuffix st1.query " AND ".toList }
    else st0
  (st.query ++ (" LIMIT $".toList ++ itoa st.placeholderNum ++ " OFFSET $".toList ++
      itoa (st.placeholderNum + 1) ++ ";".toList),
    st.values ++ [Arg.int limit, Arg.int offset])

/-! ### Specification-side notions for the query builder -/

/-- A predicate of the `WHERE` clause. -/
inductive Pred where
  | eq (key : GoString) (k : Nat)
  | like (key value : GoString)

/-- Text of a predicate: `key=$k`, or `key LIKE '%value'`. -/
def Pred.render : Pred → GoString
  | .eq key k => key ++ "=$".toList ++ itoa k
  | .like key value => key ++ " LIKE '%".toList ++ value ++ "'".toList

/-- The placeholder number a predicate uses, if any. -/
def Pred.placeholder : Pred → Option Nat
  | .eq _ k => some k
  | .like _ _ => none

/-- One predicate per filter, in iteration order: `release_date` is a suffix match, every other
filter is an equality on the next placeholder, counted from `k`. -/
def predsFrom : Nat → Filters → List Pred
  | _, [] => []
  | k, (key, v) :: rest =>
    if key = releaseDateKey then Pred.like key v :: predsFrom k rest
    else Pred.eq key k :: predsFrom (k + 1) rest

/-- The filters other than `release_date`, in iteration order. -/
def eqFilters (filters : Filters) : Filters :=
  filters.filter fun kv => kv.1 ≠ releaseDateKey


/-! ## A storage port for concrete instances -/

/-- A storage port that answers every call with fixed results; the store counts the calls.  It
serves to instantiate the statements below at concrete inputs. -/
def stubRepo (song : Song) (songs : Slice Song) (err : Option Error) : DBInterface Nat where
  GetSongsByFilterDB := fun _ _ _ n => ((songs, err), n + 1)
  SearchSongByIDDB := fun _ n => ((song, err), n + 1)
  DeleteSongByIDDB := fun _ n => (err, n + 1)
  ChangeSongByIDDB := fun _ _ n => (err, n + 1)
  AddSongDB := fun _ n => (err, n + 1)

/-- An environment in which the current year is 2026 and `url.Parse` accepts every link as
`http://host`. -/
def sampleEnv : Env :=
  { urlParse := fun _ => some { Scheme := "http".toList, Host := "host".toList }
    yearNow := 2026 }

/-- A song with the given lyrics, release date and link. -/
def sampleSong (text date link : GoString) : Song :=
  { Group := "Muse".toList, Song := "Uprising".toList, Text := text, ReleaseDate := date,
    Link := link }



/-! ## Sequential model of the table `songs` (postgres.go, lines 125-249)

The statements of `AddSongDB`, `ChangeSongByIDDB` and `DeleteSongByIDDB` are run one after
another on an in-memory table; the driver itself reports no error and the values fit their
columns. -/

/-- A row of the table `songs` (migrations/01_songs.go): the `SERIAL` key `id` and the five
columns. -/
structure Row where
  id : Int
  song : Song
  deriving DecidableEq

/-- The table `songs`, with the next value of the `id` sequence. -/
structure Table where
  rows : List Row
  nextID : Int
  deriving DecidableEq

/-- The table right after the migration: no rows. -/
def emptyTable : Table := { rows := [], nextID := 1 }

/-- `DB.AddSongDB(song)`: `SELECT id FROM songs WHERE song_name=$1 AND group_name=$2`; a row
found gives `songAlreadyInDB`, otherwise the `INSERT` adds a row with a fresh `id`. -/
def AddSongDB (song : Song) (t : Table) : Option Error × Table :=
  if t.rows.any fun r => r.song.Song = song.Song ∧ r.song.Group = song.Group then
    (some .songAlreadyInDB, t)
  else
    (none, { rows := t.rows ++ [{ id := t.nextID, song := song }], nextID := t.nextID + 1 })

/-- `DB.ChangeSongByIDDB(id, song)`: `SELECT id FROM songs WHERE id=$1`; no row gives
`songNotFound`, otherwise the `UPDATE .. WHERE id=$6` overwrites the five columns of the rows
with that `id`, and a count of affected rows other than 1 gives `changedColumns`. -/
def ChangeSongByIDDB (id : Int) (song : Song) (t : Table) : Option Error × Table :=
  if !(t.rows.any fun r => r.id = id) then (some .songNotFound, t)
  else
    let t' : Table :=
      { t with rows := t.rows.map fun r => if r.id = id then { r with song := song } else r }
    if (t.rows.filter fun r => r.id = id).length ≠ 1 then (some .changedColumns, t')
    else (none, t')

/-- `DB.DeleteSongByIDDB(id)`: `SELECT id FROM songs WHERE id=$1`; no row gives `songNotFound`,
otherwise the `DELETE .. WHERE id=$1` removes the rows with that `id`, and a count of affected
rows other than 1 gives `changedColumns`. -/
def DeleteSongByIDDB (id : Int) (t : Table) : Option Error × Table :=
  if !(t.rows.any fun r => r.id = id) then (some .songNotFound, t)
  else
    let t' : Table := { t with rows := t.rows.filter fun r => r.id ≠ id }
    if (t.rows.filter fun r => r.id = id).length ≠ 1 then (some .changedColumns, t')
    else (none, t')

/-- One call of a writing method of the storage layer. -/
inductive DBOp where
  | add (song : Song)
  | change (id : Int) (song : Song)
  | delete (id : Int)

/-- Run one call on the table. -/
def DBOp.run : DBOp → Table → Option Error × Table
  | .add song, t => AddSongDB song t
  | .change id song, t => ChangeSongByIDDB id song t
  | .delete id, t => DeleteSongByIDDB id t

/-- Run a sequence of calls, one after another; the table after the last call. -/
def runOps (ops : List DBOp) (t : Table) : Table :=
  ops.foldl (fun t op => (op.run t).2) t

/-- No two rows have the same `group_name` and `song_name`. -/
def uniquePairs (t : Table) : Prop :=
  (t.rows.map fun r => (r.song.Group, r.song.Song)).Nodup

instance (t : Table) : Decidable (uniquePairs t) := by unfold uniquePairs; infer_instance

/-- A song of the given group and title. -/
def songOf (group title : GoString) : Song :=
  { Group := group, Song := title, Text := [], ReleaseDate := "01.01.2020".toList,
    Link := "http://host".toList }


/-! ## Specification-side notions for the sequence of pages -/

/-- End of page `p` in the text: the number of positions `i` before the last one whose verse
counter is below `pageSize * p`. -/
def pageCut (text : GoString) (pageSize : Int) (p : Nat) : Nat :=
  ((List.range' 0 (text.length - 1)).filter fun i =>
    decide ((verseCounter text i : Int) < pageSize * p)).length


/-! ## Specification-side notions for validation and for the spliced year -/

/-- The errors of the claim on validation: the five validation errors of the service and the
error of parsing an id. -/
def Error.isValidationError : Error → Bool
  | .invalidPage => true
  | .invalidPageSize => true
  | .invalidYear => true
  | .invalidDate => true
  | .invalidLink => true
  | .numError _ => true
  | _ => false

/-- The storage port returns none of the validation errors from its writing methods.  In Go the
five validation errors are unexported values of package `service`, which a storage layer cannot
return, and `postgres.go` returns its own three errors or an error of the driver. -/
def DBInterface.returnsOwnErrors {σ : Type} (repo : DBInterface σ) : Prop :=
  (∀ (song : Song) (s : σ) (e : Error),
    (repo.AddSongDB song s).1 = some e → e.isValidationError = false) ∧
  (∀ (id : Int) (song : Song) (s : σ) (e : Error),
    (repo.ChangeSongByIDDB id song s).1 = some e → e.isValidationError = false)

/-- An optional sign `+` or `-` followed by one or more decimal digits. -/
def isSignedDigits (v : GoString) : Prop :=
  ∃ digits : GoString, digits ≠ [] ∧ (∀ c ∈ digits, c.isDigit = true) ∧
    (v = digits ∨ v = '+' :: digits ∨ v = '-' :: digits)

/-- The single-quote character that closes the `LIKE` pattern. -/
def quoteChar : Char := Char.ofNat 39


/-! ## Specification-side notion: the placeholders of a query text -/

/-- The placeholders of a query text, in order of occurrence: every `$` that is followed by one
or more decimal digits, with the number those digits denote. -/
def placeholdersOf : GoString → List Nat
  | [] => []
  | c :: rest =>
    if c = '$' then
      match parseDigits (rest.takeWhile Char.isDigit) with
      | some k => k :: placeholdersOf rest
      | none => placeholdersOf rest
    else placeholdersOf rest

/-! # Theorems -/

/-! ## Verse paginator -/

theorem verseCounter_succ (text : GoString) (i : Nat) :
    verseCounter text (i + 1) = verseCounter text i + (if isBoundaryAt text i then 1 else 0) := by
  unfold verseCounter
  rw [List.range_succ, List.filter_append]
  by_cases h : isBoundaryAt text i <;> simp [h]

theorem pageCharsFrom_succ (text : GoString) (lo hi : Int) (start n : Nat) :
    pageCharsFrom text lo hi start (n + 1) =
      (if lo ≤ (verseCounter text start : Int) ∧ (verseCounter text start : Int) < hi
        then (text[start]?).toList else []) ++ pageCharsFrom text lo hi (start + 1) n := by
  unfold pageCharsFrom
  rw [List.range'_succ, List.filterMap_cons]
  split_ifs with h
  · cases hx : text[start]? <;> simp [hx, h]
  · simp [h]

theorem loop_eq_pageCharsFrom (text : GoString) (pageSize page : Int) :
    ∀ (suf pre : GoString), text = pre ++ suf →
      GetTextByPage.loop pageSize page (verseCounter text pre.length) suf =
        pageCharsFrom text (wrapInt (pageSize * wrapInt (page - 1))) (wrapInt (page * pageSize))
          pre.length (suf.length - 1) := by
  intro suf
  induction suf with
  | nil => intro pre _; simp [GetTextByPage.loop, pageCharsFrom]
  | cons c tl ih =>
    intro pre hpre
    cases tl with
    | nil => simp [GetTextByPage.loop, pageCharsFrom]
    | cons d rest =>
      have hc : text[pre.length]? = some c := by
        rw [hpre, List.getElem?_append_right (le_refl _)]; simp
      have hd : text[pre.length + 1]? = some d := by
        rw [hpre, List.getElem?_append_right (by omega)]; simp
      have hb : isBoundaryAt text pre.length = (decide (c = '\n') && decide (d = '\n')) := by
        simp [isBoundaryAt, hc, hd]
      have ih' := ih (pre ++ [c]) (by simp [hpre])
      simp only [List.length_append, List.length_singleton, List.length_cons,
        List.length_nil, Nat.zero_add, Nat.add_sub_cancel] at ih'
      simp only [GetTextByPage.loop, List.length_cons, Nat.add_sub_cancel]
      rw [pageCharsFrom_succ, hc, ← ih', verseCounter_succ, hb]
      congr 1
      by_cases h1 : c = '\n' <;> by_cases h2 : d = '\n' <;> simp [h1, h2]


theorem GetTextByPage_eq_pageChars (text : GoString) (pageSize page : Int) :
    GetTextByPage text pageSize page =
      pageChars text (wrapInt (pageSize * wrapInt (page - 1))) (wrapInt (page * pageSize))
        (text.length - 1) := by
  have h := loop_eq_pageCharsFrom text pageSize page text [] rfl
  simpa [GetTextByPage, pageChars, verseCounter] using h

theorem wrapInt_of_fits (x : Int) (h1 : -2 ^ 63 ≤ x) (h2 : x < 2 ^ 63) : wrapInt x = x := by
  unfold wrapInt
  rw [Int.emod_eq_of_lt (by omega) (by omega)]
  omega


theorem verseCounter_mono (text : GoString) {i j : Nat} (h : i ≤ j) :
    verseCounter text i ≤ verseCounter text j := by
  induction j with
  | zero => simp [Nat.le_zero.mp h]
  | succ n ih =>
    rcases Nat.eq_or_lt_of_le h with h' | h'
    · simp [h']
    · have := ih (Nat.lt_succ_iff.mp h')
      rw [verseCounter_succ]; omega

theorem pageCharsFrom_eq_nil_of_lt (text : GoString) (lo hi : Int) (start n : Nat)
    (h : ∀ i, i < start + n → (verseCounter text i : Int) < lo) :
    pageCharsFrom text lo hi start n = [] := by
  unfold pageCharsFrom
  rw [List.filterMap_eq_nil_iff]
  intro i hi'
  rw [List.mem_range'_1] at hi'
  have := h i hi'.2
  rw [if_neg]
  omega

theorem GetTextByPage_of_fits (text : GoString) (pageSize page : Int)
    (hps : 0 < pageSize) (hp : 0 < page) (hfit : pageSize * page < 2 ^ 63) :
    GetTextByPage text pageSize page =
      pageChars text (pageSize * (page - 1)) (pageSize * page) (text.length - 1) := by
  have h1 : page < 2 ^ 63 := by nlinarith
  have h2 : 0 ≤ pageSize * (page - 1) := by nlinarith
  have h3 : pageSize * (page - 1) < 2 ^ 63 := by nlinarith
  rw [GetTextByPage_eq_pageChars, wrapInt_of_fits (page - 1) (by omega) (by omega),
    wrapInt_of_fits _ (by omega) h3, mul_comm page pageSize,
    wrapInt_of_fits _ (by nlinarith) hfit]

/-- C1 (as stated, refuted): with `pageSize = 2^62` and `page = 5` the products overflow the
64-bit `int`; the code returns `"a"` for the text `"ab"`, while no character has its verse
counter in `[pageSize*(page-1), pageSize*page)`.  Besides, the character at the last position
is never returned: for the text `"a\n\nb"`, `pageSize = 1` and `page = 2` the characters with
verse counter 1 are `"\nb"`, and the code returns `"\n"`. -/
theorem GetTextByPage_overflow_counterexample :
    ((0 : Int) < 4611686018427387904 ∧ (0 : Int) < 5 ∧
      GetTextByPage "ab".toList 4611686018427387904 5 = "a".toList ∧
      pageChars "ab".toList (4611686018427387904 * (5 - 1)) (4611686018427387904 * 5)
        "ab".toList.length = []) ∧
    (GetTextByPage "a\n\nb".toList 1 2 = "\n".toList ∧
      pageChars "a\n\nb".toList (1 * (2 - 1)) (1 * 2) "a\n\nb".toList.length
        = "\nb".toList) := by
  decide

/-- C1 (amended): for `pageSize > 0` and `page > 0` whose product fits the 64-bit `int`, the
output of `GetTextByPage` is, in text order, the characters at the positions before the last one
whose verse counter lies in `[pageSize*(page-1), pageSize*page)`, followed by at most one more
byte; nothing is stated about the character at the last position. -/
theorem GetTextByPage_selects_by_verse_counter (text : GoString) (pageSize page : Int)
    (hps : 0 < pageSize) (hp : 0 < page) (hfit : pageSize * page < 2 ^ 63) :
    ∃ tail : GoString, tail.length ≤ 1 ∧
      GetTextByPage text pageSize page =
        pageChars text (pageSize * (page - 1)) (pageSize * page) (text.length - 1) ++ tail :=
  ⟨[], by simp, by rw [GetTextByPage_of_fits text pageSize page hps hp hfit]; simp⟩

/-- Instance: page 2 of three one-line verses. -/
theorem GetTextByPage_selects_by_verse_counter_witness :
    ∃ tail : GoString, tail.length ≤ 1 ∧
      GetTextByPage "a\n\nb\n\nc".toList 1 2 =
        pageChars "a\n\nb\n\nc".toList (1 * (2 - 1)) (1 * 2) ("a\n\nb\n\nc".toList.length - 1)
          ++ tail :=
  GetTextByPage_selects_by_verse_counter "a\n\nb\n\nc".toList 1 2 (by decide) (by decide)
    (by decide)

/-! ### All pages together -/

theorem filter_append_filter_of_ordered {α : Type} (p q : α → Bool) :
    ∀ l : List α, (∀ x ∈ l, p x = true → q x = false) →
      l.Pairwise (fun x y => q x = true → p y = false) →
      l.filter p ++ l.filter q = l.filter fun x => p x || q x := by
  intro l
  induction l with
  | nil => intro _ _; rfl
  | cons x xs ih =>
    intro hdis hord
    rw [List.pairwise_cons] at hord
    have ih' := ih (fun y hy => hdis y (List.mem_cons_of_mem _ hy)) hord.2
    cases hp : p x
    · cases hq : q x
      · simp [List.filter_cons, hp, hq, ih']
      · have hnil : xs.filter p = [] := by
          rw [List.filter_eq_nil_iff]
          intro y hy
          simp [hord.1 y hy hq]
        rw [hnil] at ih'
        simp only [List.nil_append] at ih'
        simp [List.filter_cons, hp, hq, hnil, ih']
    · have hq := hdis x (List.mem_cons_self _ _) hp
      simp [List.filter_cons, hp, hq, ← ih']

theorem pageCharsFrom_eq_filter (text : GoString) (lo hi : Int) (start n : Nat) :
    pageCharsFrom text lo hi start n =
      ((List.range' start n).filter fun i =>
        decide (lo ≤ (verseCounter text i : Int) ∧ (verseCounter text i : Int) < hi)).filterMap
        fun i => text[i]? := by
  unfold pageCharsFrom
  rw [List.filterMap_filter]
  congr 1
  funext i
  by_cases h : lo ≤ (verseCounter text i : Int) ∧ (verseCounter text i : Int) < hi <;> simp [h]

theorem pageCharsFrom_append (text : GoString) (a b c : Int) (hab : a ≤ b) (hbc : b ≤ c)
    (start n : Nat) :
    pageCharsFrom text a b start n ++ pageCharsFrom text b c start n
      = pageCharsFrom text a c start n := by
  simp only [pageCharsFrom_eq_filter]
  rw [← List.filterMap_append, filter_append_filter_of_ordered]
  · congr 1
    apply List.filter_congr
    intro i _
    by_cases h1 : a ≤ (verseCounter text i : Int) <;>
      by_cases h2 : (verseCounter text i : Int) < b <;>
      by_cases h3 : (verseCounter text i : Int) < c <;> simp [h1, h2, h3] <;> omega
  · intro i _ hi
    simp only [decide_eq_true_eq, decide_eq_false_iff_not] at hi ⊢
    omega
  · rw [List.pairwise_iff_getElem]
    intro i j hi hj hij hq
    simp only [List.getElem_range'_1, decide_eq_true_eq, decide_eq_false_iff_not] at hq ⊢
    have := verseCounter_mono text (show start + i ≤ start + j by omega)
    omega

theorem filterMap_getElem?_range' (text : GoString) :
    ∀ n, n ≤ text.length → (List.range' 0 n).filterMap (fun i => text[i]?) = text.take n := by
  intro n
  induction n with
  | zero => intro _; simp
  | succ k ih =>
    intro hk
    have hlt : k < text.length := by omega
    rw [List.range'_1_concat, List.filterMap_append, ih (by omega), List.take_succ]
    simp [List.getElem?_eq_getElem hlt]

theorem pageChars_all (text : GoString) (hi : Int) (n : Nat) (hn : n ≤ text.length)
    (h : (verseCounter text n : Int) < hi) : pageChars text 0 hi n = text.take n := by
  unfold pageChars
  rw [pageCharsFrom_eq_filter]
  have hall : ((List.range' 0 n).filter fun i =>
      decide ((0 : Int) ≤ (verseCounter text i : Int) ∧ (verseCounter text i : Int) < hi))
      = List.range' 0 n := by
    rw [List.filter_eq_self]
    intro i hi'
    rw [List.mem_range'_1] at hi'
    have := verseCounter_mono text (show i ≤ n by omega)
    simp only [decide_eq_true_eq]
    omega
  rw [hall]
  exact filterMap_getElem?_range' text n hn

theorem concatPages_eq_pageChars (text : GoString) (pageSize : Int) (hps : 0 < pageSize) :
    ∀ n : Nat, pageSize * n < 2 ^ 63 →
      concatPages text pageSize n = pageChars text 0 (pageSize * n) (text.length - 1) := by
  intro n
  induction n with
  | zero =>
    intro _
    simp only [concatPages, List.range'_zero, List.map_nil, List.flatten_nil]
    symm
    unfold pageChars pageCharsFrom
    rw [List.filterMap_eq_nil_iff]
    intro i _
    rw [if_neg]
    push_cast
    omega
  | succ k ih =>
    intro hfit
    have hk : pageSize * (k : Int) < 2 ^ 63 := by push_cast at hfit; nlinarith
    have hfit' : pageSize * ((k + 1 : Nat) : Int) < 2 ^ 63 := hfit
    have hpage := GetTextByPage_of_fits text pageSize ((k + 1 : Nat) : Int) hps
      (by push_cast; omega) hfit'
    unfold concatPages at ih ⊢
    rw [List.range'_1_concat, List.map_append, List.flatten_append, ih hk]
    simp only [List.map_cons, List.map_nil, List.flatten_cons, List.flatten_nil,
      List.append_nil]
    rw [show ((1 + k : Nat) : Int) = ((k + 1 : Nat) : Int) by push_cast; ring, hpage]
    have e1 : pageSize * (((k + 1 : Nat) : Int) - 1) = pageSize * (k : Int) := by
      push_cast; ring_nf
    rw [e1]
    unfold pageChars
    exact pageCharsFrom_append text 0 _ _ (by positivity) (by push_cast; nlinarith) 0 _


theorem pageCount_mul_gt (text : GoString) (pageSize : Nat) (hps : 0 < pageSize) :
    boundaryCount text < pageSize * pageCount text pageSize ∧
    pageSize * pageCount text pageSize ≤ boundaryCount text + pageSize := by
  unfold pageCount verseCount
  have h1 := Nat.div_add_mod (boundaryCount text + 1 + pageSize - 1) pageSize
  have h2 := Nat.mod_lt (boundaryCount text + 1 + pageSize - 1) hps
  constructor <;> omega

/-- The concatenation of the pages `1 .. ceil(verseCount/pageSize)` is the text without its last
byte, whenever `pageSize > 0` and the number of boundaries plus `pageSize` fits the 64-bit
`int`. -/
theorem concatPages_eq_dropLast (text : GoString) (pageSize : Nat) (hps : 0 < pageSize)
    (hfit : (boundaryCount text : Int) + pageSize < 2 ^ 63) :
    concatPages text pageSize (pageCount text pageSize) = text.dropLast := by
  obtain ⟨hgt, hle⟩ := pageCount_mul_gt text pageSize hps
  have hgt' : (boundaryCount text : Int) < (pageSize : Int) * (pageCount text pageSize : Nat) := by
    exact_mod_cast hgt
  have hle' : (pageSize : Int) * (pageCount text pageSize : Nat)
      ≤ (boundaryCount text : Int) + pageSize := by
    exact_mod_cast hle
  rw [concatPages_eq_pageChars text pageSize (by exact_mod_cast hps) _ (by omega),
    pageChars_all text _ _ (by omega), List.dropLast_eq_take]
  have := verseCounter_mono text (show text.length - 1 ≤ text.length by omega)
  unfold boundaryCount at hgt'
  omega

/-- C2 (code defect): for the text `"a\n\nb"` (two verses) and `pageSize = 1` the pages
`1 .. ceil(verseCount/pageSize) = 2` concatenate to `"a\n\n"`: the last character `b`, which is
not a line break, is lost, so more than line breaks has been removed. -/
theorem concatPages_loses_last_character :
    pageCount "a\n\nb".toList 1 = 2 ∧
    concatPages "a\n\nb".toList 1 (pageCount "a\n\nb".toList 1) = "a\n\n".toList ∧
    onlyLineBreaksRemoved "a\n\nb".toList
      (concatPages "a\n\nb".toList 1 (pageCount "a\n\nb".toList 1)) = false := by
  decide


/-! ## Lyrics by page: `GetTextByID` -/

theorem Atoi_range {s : GoString} {n : Int} (h : Atoi s = .ok n) :
    -2 ^ 63 ≤ n ∧ n < 2 ^ 63 := by
  unfold Atoi at h
  simp only at h
  split at h
  · exact absurd h (by simp)
  · rename_i k _
    split_ifs at h with h1 h2 h3
    · injection h with h; subst h
      have : (k : Int) ≤ 2 ^ 63 := by exact_mod_cast h2
      omega
    · injection h with h; subst h
      have : (k : Int) < 2 ^ 63 := by exact_mod_cast h3
      omega

theorem GetTextByPage_eq_nil_of_beyond (text : GoString) (pageSize page : Int)
    (h : (boundaryCount text : Int) < wrapInt (pageSize * wrapInt (page - 1))) :
    GetTextByPage text pageSize page = [] := by
  rw [GetTextByPage_eq_pageChars]
  apply pageCharsFrom_eq_nil_of_lt
  intro i hi
  have : verseCounter text i ≤ boundaryCount text :=
    verseCounter_mono text (by omega)
  omega

/-- C3 (as stated, refuted): `pageSize = 2^62`, `page = 5`, stored text `"ab"`: the page lies
beyond the verse count (`pageSize*(page-1) = 2^64` exceeds the zero boundaries of the text), yet
`GetTextByID` returns `"a"` and no error instead of the "no text at this page" error. -/
theorem GetTextByID_overflow_counterexample :
    Atoi "4611686018427387904".toList = .ok 4611686018427387904 ∧
    Atoi "5".toList = .ok 5 ∧
    (boundaryCount "ab".toList : Int) < 4611686018427387904 * (5 - 1) ∧
    (GetTextByID (stubRepo (sampleSong "ab".toList [] []) none none) "1".toList
      "4611686018427387904".toList "5".toList ⟨0, []⟩).1 = ("a".toList, none) := by
  decide

/-- C3 (amended): when `pageSize` and `page` parse as positive integers, the song is found, and
`pageSize*(page-1)` fits the 64-bit `int` and is greater than the number of blank-line boundaries
of the stored text, `GetTextByID` fails with the "no text at this page" error; and for no input
does `GetTextByID` return an empty string together with no error. -/
theorem GetTextByID_noText_beyond_last_page {σ : Type} (repo : DBInterface σ)
    (songID pageSize page : GoString) (w : World σ) :
    (∀ ps p id : Int, Atoi pageSize = .ok ps → 0 < ps → Atoi page = .ok p → 0 < p →
        Atoi songID = .ok id → (repo.SearchSongByIDDB id w.db).1.2 = none →
        ps * (p - 1) < 2 ^ 63 →
        (boundaryCount (repo.SearchSongByIDDB id w.db).1.1.Text : Int) < ps * (p - 1) →
        (GetTextByID repo songID pageSize page w).1 = ([], some Error.noText)) ∧
    (GetTextByID repo songID pageSize page w).1 ≠ ([], none) := by
  constructor
  · intro ps p id hps hps0 hp hp0 hid hfound hfit hbeyond
    have hpr := Atoi_range hp
    have hlo : wrapInt (ps * wrapInt (p - 1)) = ps * (p - 1) := by
      rw [wrapInt_of_fits (p - 1) (by omega) (by omega)]
      exact wrapInt_of_fits _ (by nlinarith) hfit
    have hnil := GetTextByPage_eq_nil_of_beyond (repo.SearchSongByIDDB id w.db).1.1.Text ps p
      (by rw [hlo]; exact hbeyond)
    simp [GetTextByID, hps, hp, hid, hfound, hnil, not_le.mpr hps0, not_le.mpr hp0]
  · unfold GetTextByID
    cases Atoi pageSize with
    | error e => simp
    | ok ps =>
      by_cases h1 : ps ≤ 0
      · simp [h1]
      · cases Atoi page with
        | error e => simp [h1]
        | ok p =>
          by_cases h2 : p ≤ 0
          · simp [h1, h2]
          · cases Atoi songID with
            | error e => simp [h1, h2]
            | ok id =>
              cases hres : (repo.SearchSongByIDDB id w.db).1.2 with
              | some err => simp [h1, h2, hres]
              | none =>
                by_cases h0 :
                    GetTextByPage (repo.SearchSongByIDDB id w.db).1.1.Text ps p = []
                · simp [h1, h2, hres, h0]
                · simp [h1, h2, hres, h0]

/-- Instance: page 3 of a text with two verses. -/
theorem GetTextByID_noText_beyond_last_page_witness :
    (GetTextByID (stubRepo (sampleSong "a\n\nb".toList [] []) none none) "1".toList
      "1".toList "3".toList ⟨0, []⟩).1 = ([], some Error.noText) :=
  (GetTextByID_noText_beyond_last_page (stubRepo (sampleSong "a\n\nb".toList [] []) none none)
    "1".toList "1".toList "3".toList ⟨0, []⟩).1 1 3 1 (by decide) (by decide) (by decide)
      (by decide) (by decide) (by decide) (by decide) (by decide)


/-! ## Date validation: `CheckDate` -/

theorem isDigit_iff (c : Char) : c.isDigit = true ↔ 48 ≤ c.toNat ∧ c.toNat ≤ 57 := by
  simp [Char.isDigit, Char.toNat, UInt32.le_def, UInt32.toNat, BitVec.le_def]

theorem digitChar_digitVal {c : Char} (h : c.isDigit = true) : digitChar (digitVal c) = c := by
  rw [isDigit_iff] at h
  unfold digitChar digitVal
  rw [Nat.add_sub_cancel' h.1, Char.ofNat_toNat]

theorem digitVal_le {c : Char} (h : c.isDigit = true) : digitVal c ≤ 9 := by
  rw [isDigit_iff] at h
  unfold digitVal
  omega

theorem digitChar_isDigit {k : Nat} (h : k < 10) : (digitChar k).isDigit = true := by
  interval_cases k <;> decide

theorem digitVal_digitChar {k : Nat} (h : k < 10) : digitVal (digitChar k) = k := by
  interval_cases k <;> decide

theorem digitChar_ne_dash {k : Nat} (h : k < 10) : digitChar k ≠ '-' := by
  interval_cases k <;> decide

theorem isLeap_iff (y : Nat) : isLeap y = true ↔ leapYear y := by
  simp [isLeap, leapYear, Nat.dvd_iff_mod_eq_zero]

theorem daysIn_eq_daysInMonth (y m : Nat) (h1 : 1 ≤ m) (h2 : m ≤ 12) :
    daysIn m y = daysInMonth y m := by
  have hl := isLeap_iff y
  interval_cases m <;> simp [daysIn, daysInMonth]
  by_cases h : leapYear y
  · simp [h, hl.mpr h]
  · have : isLeap y = false := by
      cases hb : isLeap y
      · rfl
      · exact absurd (hl.mp hb) h
    simp [h, this]


theorem parseDigits_pad4 {y : Nat} (h : y ≤ 9999) : parseDigits (pad4 y) = some y := by
  have h3 := @digitVal_digitChar (y / 1000 % 10) (Nat.mod_lt _ (by norm_num))
  have h2 := @digitVal_digitChar (y / 100 % 10) (Nat.mod_lt _ (by norm_num))
  have h1 := @digitVal_digitChar (y / 10 % 10) (Nat.mod_lt _ (by norm_num))
  have h0 := @digitVal_digitChar (y % 10) (Nat.mod_lt _ (by norm_num))
  have d3 := @digitChar_isDigit (y / 1000 % 10) (Nat.mod_lt _ (by norm_num))
  have d2 := @digitChar_isDigit (y / 100 % 10) (Nat.mod_lt _ (by norm_num))
  have d1 := @digitChar_isDigit (y / 10 % 10) (Nat.mod_lt _ (by norm_num))
  have d0 := @digitChar_isDigit (y % 10) (Nat.mod_lt _ (by norm_num))
  simp only [parseDigits, pad4, List.all_cons, List.all_nil, List.foldl_cons, List.foldl_nil,
    d3, d2, d1, d0, h3, h2, h1, h0]
  simp
  omega

theorem parseDigits_four {a b c e : Char} {y : Nat} (h : parseDigits [a, b, c, e] = some y) :
    y ≤ 9999 ∧ pad4 y = [a, b, c, e] := by
  simp only [parseDigits, List.all_cons, List.all_nil, List.foldl_cons, List.foldl_nil] at h
  simp only [reduceCtorEq, if_false, Bool.and_true, Bool.and_eq_true] at h
  split_ifs at h with hd
  obtain ⟨ha, hb, hc, he⟩ := hd
  injection h with h
  have la := digitVal_le ha
  have lb := digitVal_le hb
  have lc := digitVal_le hc
  have le := digitVal_le he
  refine ⟨by omega, ?_⟩
  have e3 : y / 1000 % 10 = digitVal a := by omega
  have e2 : y / 100 % 10 = digitVal b := by omega
  have e1 : y / 10 % 10 = digitVal c := by omega
  have e0 : y % 10 = digitVal e := by omega
  simp only [pad4, e3, e2, e1, e0, digitChar_digitVal ha, digitChar_digitVal hb,
    digitChar_digitVal hc, digitChar_digitVal he]

theorem parseLongYear_some {v v1 : GoString} {y : Nat} (h : parseLongYear v = some (y, v1)) :
    y ≤ 9999 ∧ v = pad4 y ++ v1 := by
  unfold parseLongYear at h
  split_ifs at h with hlen
  rcases v with _ | ⟨a, _ | ⟨b, _ | ⟨c, _ | ⟨e, rest⟩⟩⟩⟩
  all_goals try (simp at hlen)
  simp only [List.take_succ_cons, List.take_zero, List.drop_succ_cons, List.drop_zero] at h
  cases hp : parseDigits [a, b, c, e] with
  | none => simp [hp] at h
  | some y' =>
    simp only [hp, Option.some.injEq, Prod.mk.injEq] at h
    obtain ⟨rfl, rfl⟩ := h
    obtain ⟨hy, hpad⟩ := parseDigits_four hp
    exact ⟨hy, by rw [hpad]; rfl⟩

theorem parseLongYear_pad4 {y : Nat} (h : y ≤ 9999) (rest : GoString) :
    parseLongYear (pad4 y ++ rest) = some (y, rest) := by
  have hp := parseDigits_pad4 h
  unfold pad4 at hp
  simp [parseLongYear, pad4, hp]

theorem getnumFixed_some {v v1 : GoString} {n : Nat} (h : getnumFixed v = some (n, v1)) :
    n ≤ 99 ∧ v = pad2 n ++ v1 := by
  unfold getnumFixed at h
  split at h
  · rename_i a b rest
    split_ifs at h with hd
    simp only [Bool.and_eq_true] at hd
    simp only [Option.some.injEq, Prod.mk.injEq] at h
    obtain ⟨rfl, rfl⟩ := h
    have la := digitVal_le hd.1
    have lb := digitVal_le hd.2
    refine ⟨by omega, ?_⟩
    have e1 : (digitVal a * 10 + digitVal b) / 10 % 10 = digitVal a := by omega
    have e0 : (digitVal a * 10 + digitVal b) % 10 = digitVal b := by omega
    simp only [pad2, e1, e0, digitChar_digitVal hd.1, digitChar_digitVal hd.2]
    rfl
  · exact absurd h (by simp)

theorem getnumFixed_pad2 {n : Nat} (h : n ≤ 99) (rest : GoString) :
    getnumFixed (pad2 n ++ rest) = some (n, rest) := by
  have h1 := @digitVal_digitChar (n / 10 % 10) (Nat.mod_lt _ (by norm_num))
  have h0 := @digitVal_digitChar (n % 10) (Nat.mod_lt _ (by norm_num))
  have d1 := @digitChar_isDigit (n / 10 % 10) (Nat.mod_lt _ (by norm_num))
  have d0 := @digitChar_isDigit (n % 10) (Nat.mod_lt _ (by norm_num))
  simp only [pad2, getnumFixed, List.cons_append, List.nil_append, d1, d0, h1, h0]
  simp
  omega

theorem skipDash_some {v v1 : GoString} (h : skipDash v = some v1) : v = '-' :: v1 := by
  unfold skipDash at h
  split at h
  · split_ifs at h with hc
    injection h with h
    rw [hc, h]
  · exact absurd h (by simp)

theorem skipDash_dash (rest : GoString) : skipDash ('-' :: rest) = some rest := by
  simp [skipDash]

theorem daysInMonth_le (y m : Nat) : daysInMonth y m ≤ 31 := by
  unfold daysInMonth
  split <;> try omega
  split_ifs <;> omega

theorem timeParseDateOnly_isSome_iff (v : GoString) :
    (timeParseDateOnly v).isSome = true ↔ denotesCalendarDate v := by
  constructor
  · intro h
    unfold timeParseDateOnly at h
    cases h1 : parseLongYear v with
    | none => simp [h1] at h
    | some r1 =>
      obtain ⟨year, v1⟩ := r1
      simp only [h1] at h
      cases h2 : skipDash v1 with
      | none => simp [h2] at h
      | some v2 =>
        simp only [h2] at h
        cases h3 : getnumFixed v2 with
        | none => simp [h3] at h
        | some r3 =>
          obtain ⟨month, v3⟩ := r3
          simp only [h3] at h
          by_cases hm : month ≤ 0 ∨ 12 < month
          · rw [if_pos hm] at h; simp at h
          · rw [if_neg hm] at h
            cases h4 : skipDash v3 with
            | none => simp [h4] at h
            | some v4 =>
              simp only [h4] at h
              cases h5 : getnumFixed v4 with
              | none => simp [h5] at h
              | some r5 =>
                obtain ⟨day, v5⟩ := r5
                simp only [h5] at h
                by_cases hv5 : v5 ≠ []
                · rw [if_pos hv5] at h; simp at h
                · by_cases hd : day < 1 ∨ day > daysIn month year
                  · rw [if_neg hv5, if_pos hd] at h; simp at h
                  · push_neg at hm hd hv5
                    obtain ⟨hy, e1⟩ := parseLongYear_some h1
                    have e2 := skipDash_some h2
                    obtain ⟨_, e3⟩ := getnumFixed_some h3
                    have e4 := skipDash_some h4
                    obtain ⟨_, e5⟩ := getnumFixed_some h5
                    refine ⟨year, month, day, hy, by omega, hm.2, hd.1, ?_, ?_⟩
                    · rw [← daysIn_eq_daysInMonth year month (by omega) hm.2]; exact hd.2
                    · rw [e1, e2, e3, e4, e5, hv5]; simp
  · rintro ⟨y, m, d, hy, hm1, hm2, hd1, hd2, rfl⟩
    have hd3 := daysInMonth_le y m
    have hdays := daysIn_eq_daysInMonth y m hm1 hm2
    have e1 : pad4 y ++ "-".toList ++ pad2 m ++ "-".toList ++ pad2 d
        = pad4 y ++ ('-' :: (pad2 m ++ ('-' :: (pad2 d ++ [])))) := by simp
    rw [e1]
    have hm' : ¬ (m ≤ 0 ∨ 12 < m) := by omega
    have hd' : ¬ (d < 1 ∨ d > daysInMonth y m) := by omega
    simp only [timeParseDateOnly, parseLongYear_pad4 hy, skipDash_dash,
      getnumFixed_pad2 (show m ≤ 99 by omega), getnumFixed_pad2 (show d ≤ 99 by omega), hdays,
      if_neg hm', if_neg hd', ne_eq, not_true_eq_false, if_false, Option.isSome_some]


theorem digitChar_ne_dot {k : Nat} (h : k < 10) : digitChar k ≠ '.' := by
  interval_cases k <;> decide

theorem Split_of_not_mem (sep : Char) (s : GoString) (h : sep ∉ s) : Split sep s = [s] := by
  induction s with
  | nil => rfl
  | cons c rest ih =>
    simp only [List.mem_cons, not_or] at h
    have hc : c ≠ sep := fun e => h.1 e.symm
    simp [Split, hc, ih h.2]

theorem Split_pad4 (y : Nat) : Split '.' (pad4 y) = [pad4 y] := by
  apply Split_of_not_mem
  have h3 := @digitChar_ne_dot (y / 1000 % 10) (Nat.mod_lt _ (by norm_num))
  have h2 := @digitChar_ne_dot (y / 100 % 10) (Nat.mod_lt _ (by norm_num))
  have h1 := @digitChar_ne_dot (y / 10 % 10) (Nat.mod_lt _ (by norm_num))
  have h0 := @digitChar_ne_dot (y % 10) (Nat.mod_lt _ (by norm_num))
  simp [pad4, Ne.symm h3, Ne.symm h2, Ne.symm h1, Ne.symm h0]

theorem CheckDate_feb29 (y : Nat) (hy : y ≤ 9999) :
    CheckDate ("29.02.".toList ++ pad4 y) = true ↔ leapYear y := by
  have hgen : ∀ t : GoString, Split '.' t = [t] →
      Split '.' ("29.02.".toList ++ t) = ["29".toList, "02".toList, t] := by
    intro t ht
    simp [Split, ht]
  have hs := hgen (pad4 y) (Split_pad4 y)
  have e1 : pad4 y ++ "-".toList ++ "02".toList ++ "-".toList ++ "29".toList
      = pad4 y ++ ('-' :: (pad2 2 ++ ('-' :: (pad2 29 ++ [])))) := by
    simp [pad2, digitChar]
  unfold CheckDate
  rw [hs]
  simp only [e1, timeParseDateOnly, parseLongYear_pad4 hy, skipDash_dash,
    getnumFixed_pad2 (show 2 ≤ 99 by omega), getnumFixed_pad2 (show 29 ≤ 99 by omega)]
  rw [← isLeap_iff]
  cases hl : isLeap y <;> simp [daysIn, hl]

theorem append_cons_cancel {a : Char} :
    ∀ {x₁ x₂ z₁ z₂ : GoString}, a ∉ x₁ → a ∉ x₂ → x₁ ++ a :: z₁ = x₂ ++ a :: z₂ →
      x₁ = x₂ ∧ z₁ = z₂ := by
  intro x₁
  induction x₁ with
  | nil =>
    intro x₂ z₁ z₂ _ h2 h
    cases x₂ with
    | nil => simpa using h
    | cons b t =>
      simp only [List.nil_append, List.cons_append, List.cons.injEq] at h
      exact absurd (h.1 ▸ List.mem_cons_self _ _) h2
  | cons c t ih =>
    intro x₂ z₁ z₂ h1 h2 h
    cases x₂ with
    | nil =>
      simp only [List.nil_append, List.cons_append, List.cons.injEq] at h
      exact absurd (h.1 ▸ List.mem_cons_self _ _) h1
    | cons b t2 =>
      simp only [List.cons_append, List.cons.injEq] at h
      have := ih (fun hm => h1 (List.mem_cons_of_mem _ hm))
        (fun hm => h2 (List.mem_cons_of_mem _ hm)) h.2
      exact ⟨by rw [h.1, this.1], this.2⟩

theorem dash_not_mem_pad2 (n : Nat) : '-' ∉ pad2 n := by
  have h1 := @digitChar_ne_dash (n / 10 % 10) (Nat.mod_lt _ (by norm_num))
  have h0 := @digitChar_ne_dash (n % 10) (Nat.mod_lt _ (by norm_num))
  simp [pad2, Ne.symm h1, Ne.symm h0]

theorem dash_not_mem_pad4 (y : Nat) : '-' ∉ pad4 y := by
  have h3 := @digitChar_ne_dash (y / 1000 % 10) (Nat.mod_lt _ (by norm_num))
  have h2 := @digitChar_ne_dash (y / 100 % 10) (Nat.mod_lt _ (by norm_num))
  have h1 := @digitChar_ne_dash (y / 10 % 10) (Nat.mod_lt _ (by norm_num))
  have h0 := @digitChar_ne_dash (y % 10) (Nat.mod_lt _ (by norm_num))
  simp [pad4, Ne.symm h3, Ne.symm h2, Ne.symm h1, Ne.symm h0]

theorem components_of_joined {year month day : GoString} {y m d : Nat}
    (h : year ++ "-".toList ++ month ++ "-".toList ++ day
      = pad4 y ++ "-".toList ++ pad2 m ++ "-".toList ++ pad2 d) :
    year = pad4 y ∧ month = pad2 m ∧ day = pad2 d := by
  have hc := congrArg (List.count '-') h
  have c4 := List.count_eq_zero.mpr (dash_not_mem_pad4 y)
  have c2 := List.count_eq_zero.mpr (dash_not_mem_pad2 m)
  have c2' := List.count_eq_zero.mpr (dash_not_mem_pad2 d)
  simp only [List.count_append, c4, c2, c2'] at hc
  have hone : List.count '-' "-".toList = 1 := by decide
  rw [hone] at hc
  have ny : '-' ∉ year := List.count_eq_zero.mp (by omega)
  have nm : '-' ∉ month := List.count_eq_zero.mp (by omega)
  have h' : year ++ '-' :: (month ++ '-' :: day) = pad4 y ++ '-' :: (pad2 m ++ '-' :: pad2 d) := by
    simpa using h
  obtain ⟨e1, r1⟩ := append_cons_cancel ny (dash_not_mem_pad4 y) h'
  obtain ⟨e2, r2⟩ := append_cons_cancel nm (dash_not_mem_pad2 m) r1
  exact ⟨e1, e2, r2⟩

theorem CheckDate_iff (s : GoString) :
    CheckDate s = true ↔
      ∃ day month year : GoString, Split '.' s = [day, month, year] ∧
        denotesCalendarDate (year ++ "-".toList ++ month ++ "-".toList ++ day) := by
  unfold CheckDate
  constructor
  · intro h
    split at h
    · rename_i d m y hs
      exact ⟨d, m, y, hs, (timeParseDateOnly_isSome_iff _).mp h⟩
    · exact absurd h (by simp)
  · rintro ⟨d, m, y, hs, hden⟩
    rw [hs]
    exact (timeParseDateOnly_isSome_iff _).mpr hden

/-- C4: `CheckDate(s)` is true exactly when splitting `s` on `.` yields three components day,
month, year and the string `year-month-day` is `YYYY-MM-DD` for a real calendar date; 29
February is accepted exactly in leap years; the listed strings are accepted or rejected as the
claim says, and 30 February, month 13, a non-numeric component and two or four components are
rejected. -/
theorem CheckDate_accepts_exactly_real_dates :
    (∀ s : GoString, CheckDate s = true ↔
      ∃ day month year : GoString, Split '.' s = [day, month, year] ∧
        denotesCalendarDate (year ++ "-".toList ++ month ++ "-".toList ++ day)) ∧
    (∀ y : Nat, y ≤ 9999 → (CheckDate ("29.02.".toList ++ pad4 y) = true ↔ leapYear y)) ∧
    CheckDate "29.02.2024".toList = true ∧
    CheckDate "29.02.2023".toList = false ∧
    CheckDate "2020-01-01".toList = false ∧
    CheckDate "30.02.2024".toList = false ∧
    CheckDate "01.13.2024".toList = false ∧
    CheckDate "0a.01.2024".toList = false ∧
    CheckDate "01.2024".toList = false ∧
    CheckDate "01.01.2024.".toList = false := by
  refine ⟨CheckDate_iff, CheckDate_feb29, ?_, ?_, ?_, ?_, ?_, ?_, ?_, ?_⟩ <;> decide

/-- C5 (as stated, refuted): the date `1.1.2020`, written without leading zeros, is rejected. -/
theorem CheckDate_unpadded_counterexample : CheckDate "1.1.2020".toList = false := by
  decide

/-- C5 (amended): `CheckDate` rejects every string whose day or month component does not
consist of exactly two characters, so a one-digit day or month written without zero padding
is rejected; only the zero-padded form is accepted. -/
theorem CheckDate_rejects_unpadded (s day month year : GoString)
    (hs : Split '.' s = [day, month, year]) (hlen : day.length ≠ 2 ∨ month.length ≠ 2) :
    CheckDate s = false := by
  cases hc : CheckDate s with
  | false => rfl
  | true =>
    obtain ⟨d', m', y', hs', y, m, d, -, -, -, -, -, hj⟩ := (CheckDate_iff s).mp hc
    rw [hs] at hs'
    simp only [List.cons.injEq, and_true] at hs'
    obtain ⟨rfl, rfl, rfl⟩ := hs'
    obtain ⟨-, e2, e3⟩ := components_of_joined hj
    rw [e2, e3] at hlen
    simp [pad2] at hlen

/-- Instance: `1.1.2020` is rejected, while the zero-padded
`01.01.2020` is accepted. -/
theorem CheckDate_rejects_unpadded_witness :
    CheckDate "1.1.2020".toList = false ∧ CheckDate "01.01.2020".toList = true :=
  ⟨CheckDate_rejects_unpadded "1.1.2020".toList "1".toList "1".toList "2020".toList
    (by decide) (by decide), by decide⟩


/-! ## Create and update: `AddSong`, `ChangeSongByID` -/

/-- C6 (as stated, refuted): in the year 2026 a song released on `01.01.2999`, a well-formed
date with a later year, is accepted by `AddSong` and by `ChangeSongByID`: both return no error
and reach the storage port. -/
theorem AddSong_future_year_counterexample :
    CheckDate "01.01.2999".toList = true ∧ sampleEnv.yearNow < 2999 ∧
    AddSong sampleEnv (stubRepo (sampleSong [] [] []) none none)
      (sampleSong [] "01.01.2999".toList "http://host".toList) ⟨0, []⟩
      = (none, ⟨1, [Call.AddSongDB (sampleSong [] "01.01.2999".toList "http://host".toList)]⟩) ∧
    ChangeSongByID sampleEnv (stubRepo (sampleSong [] [] []) none none) "7".toList
      (sampleSong [] "01.01.2999".toList "http://host".toList) ⟨0, []⟩
      = (none,
          ⟨1, [Call.ChangeSongByIDDB 7 (sampleSong [] "01.01.2999".toList "http://host".toList)]⟩)
    := by
  decide

/-- C6 (amended): the date rule of create and update is `CheckDate` alone and does not look at
the current year.  For a release date that `CheckDate` rejects, `AddSong` fails with the
"invalid date" error and so does `ChangeSongByID` with any parseable id, both without touching
the store; for a release date that `CheckDate` accepts, whatever its year, neither fails on the
date: each fails with "invalid link" when the link check fails and otherwise returns the result
of the storage port. -/
theorem AddSong_ChangeSongByID_date_rule {σ : Type} (env : Env) (repo : DBInterface σ)
    (songID : GoString) (id : Int) (song : Song) (w : World σ) (hid : Atoi songID = .ok id) :
    (CheckDate song.ReleaseDate = false →
      AddSong env repo song w = (some Error.invalidDate, w) ∧
      ChangeSongByID env repo songID song w = (some Error.invalidDate, w)) ∧
    (CheckDate song.ReleaseDate = true →
      AddSong env repo song w =
        (if CheckLink env song.Link then
          ((repo.AddSongDB song w.db).1,
            ⟨(repo.AddSongDB song w.db).2, w.calls ++ [Call.AddSongDB song]⟩)
        else (some Error.invalidLink, w)) ∧
      ChangeSongByID env repo songID song w =
        (if CheckLink env song.Link then
          ((repo.ChangeSongByIDDB id song w.db).1,
            ⟨(repo.ChangeSongByIDDB id song w.db).2, w.calls ++ [Call.ChangeSongByIDDB id song]⟩)
        else (some Error.invalidLink, w))) := by
  constructor
  · intro hd
    simp [AddSong, ChangeSongByID, hid, hd]
  · intro hd
    cases hl : CheckLink env song.Link <;> simp [AddSong, ChangeSongByID, hid, hd, hl]

/-- Instance: the release date `31.02.2020` is rejected
by create and by update. -/
theorem AddSong_ChangeSongByID_date_rule_witness :
    AddSong sampleEnv (stubRepo (sampleSong [] [] []) none none)
        (sampleSong [] "31.02.2020".toList "http://host".toList) ⟨0, []⟩
      = (some Error.invalidDate, ⟨0, []⟩) ∧
    ChangeSongByID sampleEnv (stubRepo (sampleSong [] [] []) none none) "7".toList
        (sampleSong [] "31.02.2020".toList "http://host".toList) ⟨0, []⟩
      = (some Error.invalidDate, ⟨0, []⟩) :=
  (AddSong_ChangeSongByID_date_rule sampleEnv (stubRepo (sampleSong [] [] []) none none)
    "7".toList 7 (sampleSong [] "31.02.2020".toList "http://host".toList) ⟨0, []⟩
    (by decide)).1 (by decide)


/-! ## Filtered listing: `GetSongsByFilter` -/

theorem lookup_dropEmpty (filters : Filters) (key v : GoString)
    (h : filters.lookup key = some v) (hv : v ≠ []) : (dropEmpty filters).lookup key = some v := by
  induction filters with
  | nil => simp at h
  | cons kv rest ih =>
    obtain ⟨k, x⟩ := kv
    by_cases hk : key = k
    · subst hk
      simp only [List.lookup_cons, beq_self_eq_true] at h
      injection h with h
      subst h
      simp [dropEmpty, List.filter_cons, hv, List.lookup_cons]
    · have hk' : (key == k) = false := by simpa using hk
      simp only [List.lookup_cons, hk'] at h
      have := ih h
      by_cases hx : x = []
      · simpa [dropEmpty, List.filter_cons, hx] using this
      · simpa [dropEmpty, List.filter_cons, hx, List.lookup_cons, hk'] using this

/-- The outcomes of `GetSongsByFilter` once `page` and `pageSize` are positive integers: the
year check fails, or the link check fails, or the storage port is called. -/
theorem GetSongsByFilter_of_parsed {σ : Type} (env : Env) (repo : DBInterface σ)
    (filters : Filters) (pageSize page : GoString) (w : World σ) (ps p : Int)
    (hp : Atoi page = .ok p) (hp0 : 0 < p) (hps : Atoi pageSize = .ok ps) (hps0 : 0 < ps) :
    GetSongsByFilter env repo filters pageSize page w =
      if yearCheckFails env (dropEmpty filters) then ((none, some Error.invalidYear), w)
      else if linkCheckFails env (dropEmpty filters) then ((none, some Error.invalidLink), w)
      else
        let r := repo.GetSongsByFilterDB (dropEmpty filters) ps (wrapInt (wrapInt (p - 1) * ps))
          w.db
        let w' : World σ :=
          { db := r.2
            calls := w.calls ++
              [Call.GetSongsByFilterDB (dropEmpty filters) ps (wrapInt (wrapInt (p - 1) * ps))] }
        match r.1.2 with
        | some _ => ((none, none), w')
        | none => ((r.1.1, none), w') := by
  simp [GetSongsByFilter, hp, hps, not_le.mpr hp0, not_le.mpr hps0]

/-- C7: for every filter set and every `pageSize` string, a `page` string that does not parse
as an integer greater than zero makes `GetSongsByFilter` fail with the "invalid page" error and
return no songs (the `nil` slice), leaving the store untouched. -/
theorem GetSongsByFilter_invalid_page {σ : Type} (env : Env) (repo : DBInterface σ)
    (filters : Filters) (pageSize page : GoString) (w : World σ)
    (h : ¬ ∃ n : Int, Atoi page = .ok n ∧ 0 < n) :
    GetSongsByFilter env repo filters pageSize page w = ((none, some Error.invalidPage), w) := by
  unfold GetSongsByFilter
  cases hp : Atoi page with
  | error e => rfl
  | ok n =>
    have : n ≤ 0 := by
      by_contra hn
      exact h ⟨n, hp, not_le.mp hn⟩
    simp [this]

/-- Instance: the pages `"0"`, `"-1"`, `""` and `"abc"`,
with a valid and with an invalid page size. -/
theorem GetSongsByFilter_invalid_page_witness :
    GetSongsByFilter sampleEnv (stubRepo (sampleSong [] [] []) (some []) none)
        [("group_name".toList, "Muse".toList)] "10".toList "0".toList ⟨0, []⟩
      = ((none, some Error.invalidPage), ⟨0, []⟩) ∧
    GetSongsByFilter sampleEnv (stubRepo (sampleSong [] [] []) (some []) none)
        [] "x".toList "-1".toList ⟨0, []⟩
      = ((none, some Error.invalidPage), ⟨0, []⟩) ∧
    GetSongsByFilter sampleEnv (stubRepo (sampleSong [] [] []) (some []) none)
        [] "10".toList "".toList ⟨0, []⟩
      = ((none, some Error.invalidPage), ⟨0, []⟩) ∧
    GetSongsByFilter sampleEnv (stubRepo (sampleSong [] [] []) (some []) none)
        [] "10".toList "abc".toList ⟨0, []⟩
      = ((none, some Error.invalidPage), ⟨0, []⟩) :=
  ⟨GetSongsByFilter_invalid_page _ _ _ _ _ _ (by
      rintro ⟨n, hn, h0⟩
      have e : Atoi "0".toList = .ok 0 := by decide
      rw [e] at hn; cases hn; omega),
   GetSongsByFilter_invalid_page _ _ _ _ _ _ (by
      rintro ⟨n, hn, h0⟩
      have e : Atoi "-1".toList = .ok (-1) := by decide
      rw [e] at hn; cases hn; omega),
   GetSongsByFilter_invalid_page _ _ _ _ _ _ (by
      rintro ⟨n, hn, h0⟩
      have e : Atoi "".toList = .error (.numError []) := by decide
      rw [e] at hn; cases hn),
   GetSongsByFilter_invalid_page _ _ _ _ _ _ (by
      rintro ⟨n, hn, h0⟩
      have e : Atoi "abc".toList = .error (.numError "abc".toList) := by decide
      rw [e] at hn; cases hn)⟩


/-- C8 (as stated, refuted): in the year 2026 the release-date filters `"5"`, `"-300"` and
`"+2020"`, none of them a four-digit year, pass the year check: the storage port is called and
no error is returned. -/
theorem GetSongsByFilter_year_counterexample :
    (GetSongsByFilter sampleEnv (stubRepo (sampleSong [] [] []) (some []) none)
        [("release_date".toList, "5".toList)] "10".toList "1".toList ⟨0, []⟩).1
      = (some [], none) ∧
    (GetSongsByFilter sampleEnv (stubRepo (sampleSong [] [] []) (some []) none)
        [("release_date".toList, "-300".toList)] "10".toList "1".toList ⟨0, []⟩).1
      = (some [], none) ∧
    (GetSongsByFilter sampleEnv (stubRepo (sampleSong [] [] []) (some []) none)
        [("release_date".toList, "+2020".toList)] "10".toList "1".toList ⟨0, []⟩).1
      = (some [], none) := by
  decide

/-- C8 (amended): for valid `page` and `pageSize` and a filter set whose `release_date` value
`v` is not empty, `GetSongsByFilter` passes the year check (does not return "invalid year")
exactly when `v` parses with `strconv.Atoi` (an optional sign, then decimal digits, within the
64-bit range) as an integer that does not exceed the current year; for every other value it
fails with the "invalid year" error, returns no songs and leaves the store untouched. -/
theorem GetSongsByFilter_year_check {σ : Type} (env : Env) (repo : DBInterface σ)
    (filters : Filters) (pageSize page v : GoString) (w : World σ) (ps p : Int)
    (hp : Atoi page = .ok p) (hp0 : 0 < p) (hps : Atoi pageSize = .ok ps) (hps0 : 0 < ps)
    (hv : filters.lookup releaseDateKey = some v) (hne : v ≠ []) :
    ((GetSongsByFilter env repo filters pageSize page w).1.2 ≠ some Error.invalidYear ↔
      ∃ y : Int, Atoi v = .ok y ∧ y ≤ env.yearNow) ∧
    ((¬ ∃ y : Int, Atoi v = .ok y ∧ y ≤ env.yearNow) →
      GetSongsByFilter env repo filters pageSize page w
        = ((none, some Error.invalidYear), w)) := by
  have hl := lookup_dropEmpty filters _ v hv hne
  rw [GetSongsByFilter_of_parsed env repo filters pageSize page w ps p hp hp0 hps hps0]
  have hy : yearCheckFails env (dropEmpty filters) = true ↔
      ¬ ∃ y : Int, Atoi v = .ok y ∧ y ≤ env.yearNow := by
    unfold yearCheckFails
    rw [hl]
    cases ha : Atoi v with
    | error e => simp [ha]
    | ok y => simp [ha]
  cases hf : yearCheckFails env (dropEmpty filters)
  · have hex : ∃ y : Int, Atoi v = .ok y ∧ y ≤ env.yearNow := by
      by_contra hcon
      rw [hy.mpr hcon] at hf
      exact absurd hf (by simp)
    refine ⟨⟨fun _ => hex, fun _ => ?_⟩, fun hcon => absurd hex hcon⟩
    simp only [Bool.false_eq_true, if_false]
    split_ifs
    · simp
    · split <;> simp
  · have hnex := hy.mp hf
    refine ⟨⟨fun hcon => ?_, fun hex => absurd hex hnex⟩, fun _ => by simp⟩
    simp at hcon

/-- Instance: in the year 2026 the filter value `2999` fails
with "invalid year". -/
theorem GetSongsByFilter_year_check_witness :
    GetSongsByFilter sampleEnv (stubRepo (sampleSong [] [] []) (some []) none)
        [("release_date".toList, "2999".toList)] "10".toList "1".toList ⟨0, []⟩
      = ((none, some Error.invalidYear), ⟨0, []⟩) :=
  (GetSongsByFilter_year_check sampleEnv (stubRepo (sampleSong [] [] []) (some []) none)
    [("release_date".toList, "2999".toList)] "10".toList "1".toList "2999".toList ⟨0, []⟩ 10 1
    (by decide) (by decide) (by decide) (by decide) (by decide) (by decide)).2 (by
      rintro ⟨y, hy, hle⟩
      have e : Atoi "2999".toList = .ok 2999 := by decide
      rw [e] at hy; cases hy
      exact absurd hle (by decide))


/-- C9 (as stated, refuted): for `page = "3"` and `pageSize = "4611686018427387904"` (2^62)
the product `(page-1)*pageSize = 2^63` overflows the 64-bit `int`; the storage port is called
with `offset = -9223372036854775808`, not with `(page-1)*pageSize`. -/
theorem GetSongsByFilter_offset_counterexample :
    (GetSongsByFilter sampleEnv (stubRepo (sampleSong [] [] []) (some []) none)
        [] "4611686018427387904".toList "3".toList ⟨0, []⟩).2.calls
      = [Call.GetSongsByFilterDB [] 4611686018427387904 (-9223372036854775808)] ∧
    ((3 : Int) - 1) * 4611686018427387904 ≠ -9223372036854775808 := by
  decide

/-- C9 (amended): when `page` and `pageSize` parse as positive integers and the call fails
neither the year check nor the link check, `GetSongsByFilter` calls the filtered fetch of the
storage port exactly once, with `limit = pageSize`, with `offset = (page-1)*pageSize` computed
in 64-bit wrap-around arithmetic (the exact product whenever it is below 2^63), and with the
filter map made of exactly the entries of the input whose value is not the empty string. -/
theorem GetSongsByFilter_calls_storage_once {σ : Type} (env : Env) (repo : DBInterface σ)
    (filters : Filters) (pageSize page : GoString) (w : World σ) (ps p : Int)
    (hp : Atoi page = .ok p) (hp0 : 0 < p) (hps : Atoi pageSize = .ok ps) (hps0 : 0 < ps)
    (hyear : (GetSongsByFilter env repo filters pageSize page w).1.2 ≠ some Error.invalidYear)
    (hlink : (GetSongsByFilter env repo filters pageSize page w).1.2 ≠ some Error.invalidLink) :
    (GetSongsByFilter env repo filters pageSize page w).2.calls
      = w.calls ++ [Call.GetSongsByFilterDB (filters.filter fun kv => kv.2 ≠ []) ps
          (wrapInt ((p - 1) * ps))] ∧
    (GetSongsByFilter env repo filters pageSize page w).2.db
      = (repo.GetSongsByFilterDB (filters.filter fun kv => kv.2 ≠ []) ps
          (wrapInt ((p - 1) * ps)) w.db).2 ∧
    ((p - 1) * ps < 2 ^ 63 → wrapInt ((p - 1) * ps) = (p - 1) * ps) := by
  have hpr := Atoi_range hp
  have hw : wrapInt (p - 1) = p - 1 := wrapInt_of_fits _ (by omega) (by omega)
  rw [GetSongsByFilter_of_parsed env repo filters pageSize page w ps p hp hp0 hps hps0, hw]
    at hyear hlink ⊢
  have hfit : (p - 1) * ps < 2 ^ 63 → wrapInt ((p - 1) * ps) = (p - 1) * ps := fun h =>
    wrapInt_of_fits _ (by nlinarith) h
  cases hy : yearCheckFails env (dropEmpty filters)
  · cases hl : linkCheckFails env (dropEmpty filters)
    · simp only [hy, hl, Bool.false_eq_true, if_false]
      refine ⟨?_, ?_, hfit⟩
      · split <;> rfl
      · split <;> rfl
    · simp [hy, hl] at hlink
  · simp [hy] at hyear

/-- Instance: page 3 of size 10 with one empty and
one non-empty filter value gives `limit = 10`, `offset = 20` and the non-empty entry alone. -/
theorem GetSongsByFilter_calls_storage_once_witness :
    (GetSongsByFilter sampleEnv (stubRepo (sampleSong [] [] []) (some []) none)
        [("group_name".toList, "Muse".toList), ("song_name".toList, [])]
        "10".toList "3".toList ⟨0, []⟩).2.calls
      = [] ++ [Call.GetSongsByFilterDB
          ([("group_name".toList, "Muse".toList), ("song_name".toList, [])].filter
            fun kv => kv.2 ≠ []) 10 (wrapInt ((3 - 1) * 10))] :=
  (GetSongsByFilter_calls_storage_once sampleEnv
    (stubRepo (sampleSong [] [] []) (some []) none)
    [("group_name".toList, "Muse".toList), ("song_name".toList, [])]
    "10".toList "3".toList ⟨0, []⟩ 10 3 (by decide) (by decide) (by decide) (by decide)
    (by decide) (by decide)).1


/-! ## Query builder: `GetSongsByFilterDB` -/

theorem foldl_filterStep (filters : Filters) :
    ∀ st : QueryState, filters.foldl filterStep st =
      { query := st.query ++
          ((predsFrom st.placeholderNum filters).map fun p => p.render ++ " AND ".toList).flatten
        values := st.values ++ (eqFilters filters).map fun kv => Arg.str kv.2
        placeholderNum := st.placeholderNum + (eqFilters filters).length } := by
  induction filters with
  | nil => intro st; simp [predsFrom, eqFilters]
  | cons kv rest ih =>
    intro st
    obtain ⟨key, v⟩ := kv
    rw [List.foldl_cons, ih]
    by_cases hk : key = releaseDateKey
    · simp [filterStep, predsFrom, eqFilters, hk, Pred.render]
    · simp [filterStep, predsFrom, eqFilters, hk, Pred.render, List.filter_cons]
      omega

theorem flatten_map_append_sep (sep : GoString) (ps : List GoString) (h : ps ≠ []) :
    (ps.map fun p => p ++ sep).flatten = List.intercalate sep ps ++ sep := by
  induction ps with
  | nil => exact absurd rfl h
  | cons p rest ih =>
    cases rest with
    | nil => simp [List.intercalate]
    | cons q rest' =>
      have := ih (by simp)
      simp only [List.map_cons, List.flatten_cons] at this ⊢
      rw [this]
      simp [List.intercalate, List.intersperse]

theorem TrimSuffix_append (x sep : GoString) : TrimSuffix (x ++ sep) sep = x := by
  unfold TrimSuffix
  have h : sep.isSuffixOf (x ++ sep) = true := by
    rw [List.isSuffixOf_iff_suffix]
    exact List.suffix_append x sep
  rw [if_pos h]
  simp

theorem predsFrom_length (filters : Filters) : ∀ k, (predsFrom k filters).length = filters.length := by
  induction filters with
  | nil => intro k; rfl
  | cons kv rest ih =>
    intro k
    obtain ⟨key, v⟩ := kv
    by_cases hk : key = releaseDateKey <;> simp [predsFrom, hk, ih]

theorem predsFrom_placeholders (filters : Filters) :
    ∀ k, (predsFrom k filters).filterMap Pred.placeholder
      = List.range' k (eqFilters filters).length := by
  induction filters with
  | nil => intro k; simp [predsFrom, eqFilters]
  | cons kv rest ih =>
    intro k
    obtain ⟨key, v⟩ := kv
    by_cases hk : key = releaseDateKey
    · have := ih k
      simpa [predsFrom, hk, eqFilters, Pred.placeholder] using this
    · have := ih (k + 1)
      simp only [eqFilters] at this
      simp [predsFrom, hk, eqFilters, Pred.placeholder, List.filter_cons, List.range'_succ, this]


theorem predsFrom_ne_nil (filters : Filters) (k : Nat) (h : filters ≠ []) :
    predsFrom k filters ≠ [] := by
  intro hn
  have := predsFrom_length filters k
  rw [hn] at this
  exact h (List.length_eq_zero.mp this.symm)

theorem predsFrom_getElem? (filters : Filters) :
    ∀ (k i : Nat) (key v : GoString), filters[i]? = some (key, v) →
      (predsFrom k filters)[i]? = some
        (if key = releaseDateKey then Pred.like key v
          else Pred.eq key (k + (eqFilters (filters.take i)).length)) := by
  induction filters with
  | nil => intro k i key v h; simp at h
  | cons kv rest ih =>
    intro k i key v h
    obtain ⟨key0, v0⟩ := kv
    cases i with
    | zero =>
      simp only [List.getElem?_cons_zero, Option.some.injEq, Prod.mk.injEq] at h
      obtain ⟨rfl, rfl⟩ := h
      by_cases hk : key0 = releaseDateKey <;> simp [predsFrom, hk, eqFilters]
    | succ j =>
      simp only [List.getElem?_cons_succ] at h
      by_cases hk : key0 = releaseDateKey
      · have := ih k j key v h
        simpa [predsFrom, hk, eqFilters, List.filter_cons] using this
      · have := ih (k + 1) j key v h
        have hlen : (eqFilters (((key0, v0) :: rest).take (j + 1))).length
            = (eqFilters (rest.take j)).length + 1 := by
          simp [eqFilters, List.take_succ_cons, List.filter_cons, hk]
        rw [hlen]
        simp only [predsFrom, hk, if_false, List.getElem?_cons_succ, this]
        rw [Nat.add_assoc k 1, Nat.add_comm 1]

theorem eqFilters_value_getElem? (filters : Filters) (i : Nat) (key v : GoString)
    (h : filters[i]? = some (key, v)) (hk : key ≠ releaseDateKey) :
    ((eqFilters filters).map fun kv => Arg.str kv.2)[(eqFilters (filters.take i)).length]?
      = some (Arg.str v) := by
  have hi : i < filters.length := by
    by_contra hcon
    rw [List.getElem?_eq_none (not_lt.mp hcon)] at h
    exact absurd h (by simp)
  have hget : filters[i] = (key, v) := by
    rw [List.getElem?_eq_getElem hi] at h
    exact Option.some.inj h
  have hsplit : filters = filters.take i ++ (key, v) :: filters.drop (i + 1) := by
    rw [← hget, ← List.drop_eq_getElem_cons hi, List.take_append_drop]
  have he : eqFilters filters
      = eqFilters (filters.take i) ++ (key, v) :: eqFilters (filters.drop (i + 1)) := by
    conv_lhs => rw [hsplit]
    simp [eqFilters, List.filter_append, List.filter_cons, hk]
  rw [he, List.map_append, List.getElem?_append_right (by simp)]
  simp

/-! ## Errors of the storage port -/

/-- C11: when the inputs pass validation and the storage port returns an error `e`,
`GetTextByID`, `DeleteSongByID`, `ChangeSongByID` and `AddSong` each return exactly `e`; in the
same situation `GetSongsByFilter` returns the `nil` slice and no error. -/
theorem storage_error_passed_through_except_listing {σ : Type} (env : Env)
    (repo : DBInterface σ) (w : World σ) (e : Error) :
    (∀ (songID pageSize page : GoString) (ps p id : Int),
      Atoi pageSize = .ok ps → 0 < ps → Atoi page = .ok p → 0 < p → Atoi songID = .ok id →
      (repo.SearchSongByIDDB id w.db).1.2 = some e →
      (GetTextByID repo songID pageSize page w).1 = ([], some e)) ∧
    (∀ (songID : GoString) (id : Int), Atoi songID = .ok id →
      (repo.DeleteSongByIDDB id w.db).1 = some e →
      (DeleteSongByID repo songID w).1 = some e) ∧
    (∀ (songID : GoString) (id : Int) (song : Song), Atoi songID = .ok id →
      CheckDate song.ReleaseDate = true → CheckLink env song.Link = true →
      (repo.ChangeSongByIDDB id song w.db).1 = some e →
      (ChangeSongByID env repo songID song w).1 = some e) ∧
    (∀ song : Song, CheckDate song.ReleaseDate = true → CheckLink env song.Link = true →
      (repo.AddSongDB song w.db).1 = some e →
      (AddSong env repo song w).1 = some e) ∧
    (∀ (filters : Filters) (pageSize page : GoString) (ps p : Int),
      Atoi page = .ok p → 0 < p → Atoi pageSize = .ok ps → 0 < ps →
      yearCheckFails env (dropEmpty filters) = false →
      linkCheckFails env (dropEmpty filters) = false →
      (repo.GetSongsByFilterDB (dropEmpty filters) ps (wrapInt (wrapInt (p - 1) * ps))
        w.db).1.2 = some e →
      (GetSongsByFilter env repo filters pageSize page w).1 = (none, none)) := by
  refine ⟨?_, ?_, ?_, ?_, ?_⟩
  · intro songID pageSize page ps p id hps hps0 hp hp0 hid herr
    simp [GetTextByID, hps, hp, hid, herr, not_le.mpr hps0, not_le.mpr hp0]
  · intro songID id hid herr
    simp [DeleteSongByID, hid, herr]
  · intro songID id song hid hd hl herr
    simp [ChangeSongByID, hid, hd, hl, herr]
  · intro song hd hl herr
    simp [AddSong, hd, hl, herr]
  · intro filters pageSize page ps p hp hp0 hps hps0 hy hl herr
    rw [GetSongsByFilter_of_parsed env repo filters pageSize page w ps p hp hp0 hps hps0]
    simp [hy, hl, herr]

/-- Instance: a storage port that fails every call with the driver error `down`; the four
operations return that error and the listing returns `nil` with no error. -/
theorem storage_error_passed_through_except_listing_witness :
    (GetTextByID (stubRepo (sampleSong [] [] []) none (some (Error.driver "down".toList)))
        "7".toList "10".toList "1".toList ⟨0, []⟩).1
      = ([], some (Error.driver "down".toList)) ∧
    (DeleteSongByID (stubRepo (sampleSong [] [] []) none (some (Error.driver "down".toList)))
        "7".toList ⟨0, []⟩).1 = some (Error.driver "down".toList) ∧
    (ChangeSongByID sampleEnv
        (stubRepo (sampleSong [] [] []) none (some (Error.driver "down".toList))) "7".toList
        (sampleSong [] "01.01.2020".toList "http://host".toList) ⟨0, []⟩).1
      = some (Error.driver "down".toList) ∧
    (AddSong sampleEnv (stubRepo (sampleSong [] [] []) none (some (Error.driver "down".toList)))
        (sampleSong [] "01.01.2020".toList "http://host".toList) ⟨0, []⟩).1
      = some (Error.driver "down".toList) ∧
    (GetSongsByFilter sampleEnv
        (stubRepo (sampleSong [] [] []) none (some (Error.driver "down".toList)))
        [("group_name".toList, "Muse".toList)] "10".toList "1".toList ⟨0, []⟩).1
      = (none, none) :=
  have h := storage_error_passed_through_except_listing sampleEnv
    (stubRepo (sampleSong [] [] []) none (some (Error.driver "down".toList))) ⟨0, []⟩
    (Error.driver "down".toList)
  ⟨h.1 "7".toList "10".toList "1".toList 10 1 7 (by decide) (by decide) (by decide) (by decide)
      (by decide) (by decide),
   h.2.1 "7".toList 7 (by decide) (by decide),
   h.2.2.1 "7".toList 7 (sampleSong [] "01.01.2020".toList "http://host".toList) (by decide)
      (by decide) (by decide) (by decide),
   h.2.2.2.1 (sampleSong [] "01.01.2020".toList "http://host".toList) (by decide) (by decide)
      (by decide),
   h.2.2.2.2 [("group_name".toList, "Muse".toList)] "10".toList "1".toList 10 1 (by decide)
      (by decide) (by decide) (by decide) (by decide) (by decide) (by decide)⟩


/-! ## Uniqueness of (group, title) in the table -/

theorem AddSongDB_of_stored (song : Song) (t : Table)
    (h : ∃ r ∈ t.rows, r.song.Song = song.Song ∧ r.song.Group = song.Group) :
    AddSongDB song t = (some Error.songAlreadyInDB, t) := by
  obtain ⟨r, hr, h1, h2⟩ := h
  have : (t.rows.any fun r => decide (r.song.Song = song.Song ∧ r.song.Group = song.Group))
      = true := by
    rw [List.any_eq_true]
    exact ⟨r, hr, by simp [h1, h2]⟩
  unfold AddSongDB
  rw [if_pos this]

theorem AddSongDB_uniquePairs (song : Song) (t : Table) (h : uniquePairs t) :
    uniquePairs (AddSongDB song t).2 := by
  unfold AddSongDB
  split_ifs with hany
  · exact h
  · unfold uniquePairs at h ⊢
    simp only [List.map_append, List.map_cons, List.map_nil]
    rw [List.nodup_append]
    refine ⟨h, by simp, ?_⟩
    intro a ha hb
    simp only [List.mem_singleton] at hb
    subst hb
    simp only [List.mem_map, Prod.mk.injEq] at ha
    obtain ⟨r, hr, h1, h2⟩ := ha
    apply hany
    rw [List.any_eq_true]
    exact ⟨r, hr, by simp [h1, h2]⟩

theorem DeleteSongByIDDB_uniquePairs (id : Int) (t : Table) (h : uniquePairs t) :
    uniquePairs (DeleteSongByIDDB id t).2 := by
  have hsub : uniquePairs { t with rows := t.rows.filter fun r => r.id ≠ id } := by
    unfold uniquePairs at h ⊢
    exact List.Nodup.sublist (List.Sublist.map _ (List.filter_sublist _)) h
  unfold DeleteSongByIDDB
  split_ifs
  · exact h
  · exact hsub
  · exact hsub

/-- C12 (code defect): from the empty table, `AddSongDB` of (Muse, Uprising), `AddSongDB` of
(Muse, Starlight) and `ChangeSongByIDDB` of row 2 to (Muse, Uprising) all succeed, and the table
then holds two rows with the same group and title; `AddSongDB` of a stored (group, title) fails
with "song already in db" and leaves the table as it is. -/
theorem ChangeSongByIDDB_breaks_uniqueness :
    (AddSongDB (songOf "Muse".toList "Uprising".toList) emptyTable).1 = none ∧
    (AddSongDB (songOf "Muse".toList "Starlight".toList)
      (runOps [DBOp.add (songOf "Muse".toList "Uprising".toList)] emptyTable)).1 = none ∧
    (ChangeSongByIDDB 2 (songOf "Muse".toList "Uprising".toList)
      (runOps [DBOp.add (songOf "Muse".toList "Uprising".toList),
        DBOp.add (songOf "Muse".toList "Starlight".toList)] emptyTable)).1 = none ∧
    (runOps [DBOp.add (songOf "Muse".toList "Uprising".toList),
        DBOp.add (songOf "Muse".toList "Starlight".toList),
        DBOp.change 2 (songOf "Muse".toList "Uprising".toList)] emptyTable).rows
      = [{ id := 1, song := songOf "Muse".toList "Uprising".toList },
         { id := 2, song := songOf "Muse".toList "Uprising".toList }] ∧
    ¬ uniquePairs (runOps [DBOp.add (songOf "Muse".toList "Uprising".toList),
        DBOp.add (songOf "Muse".toList "Starlight".toList),
        DBOp.change 2 (songOf "Muse".toList "Uprising".toList)] emptyTable) ∧
    AddSongDB (songOf "Muse".toList "Uprising".toList)
        (runOps [DBOp.add (songOf "Muse".toList "Uprising".toList)] emptyTable)
      = (some Error.songAlreadyInDB,
          runOps [DBOp.add (songOf "Muse".toList "Uprising".toList)] emptyTable) := by
  decide


/-! ## The pages as slices of the text -/

theorem filter_range'_of_downward_closed (q : Nat → Bool)
    (hq : ∀ i j, i ≤ j → q j = true → q i = true) :
    ∀ m, (List.range' 0 m).filter q = List.range' 0 ((List.range' 0 m).filter q).length := by
  intro m
  induction m with
  | zero => simp
  | succ k ih =>
    rw [List.range'_1_concat, List.filter_append]
    rw [Nat.zero_add]
    cases hk : q k
    · have hnil : [k].filter q = [] := by simp [List.filter_cons, hk]
      rw [hnil, List.append_nil]
      exact ih
    · have hall : (List.range' 0 k).filter q = List.range' 0 k := by
        rw [List.filter_eq_self]
        intro i hi
        rw [List.mem_range'_1] at hi
        exact hq i k (by omega) hk
      have hone : [k].filter q = [k] := by simp [List.filter_cons, hk]
      rw [hall, hone]
      simp [List.range'_1_concat]

theorem pageChars_eq_take_pageCut (text : GoString) (pageSize : Int) (p : Nat) :
    pageChars text 0 (pageSize * p) (text.length - 1) = text.take (pageCut text pageSize p) := by
  unfold pageChars
  rw [pageCharsFrom_eq_filter]
  have hsame : ((List.range' 0 (text.length - 1)).filter fun i =>
      decide ((0 : Int) ≤ (verseCounter text i : Int) ∧
        (verseCounter text i : Int) < pageSize * p))
      = (List.range' 0 (text.length - 1)).filter fun i =>
        decide ((verseCounter text i : Int) < pageSize * p) := by
    apply List.filter_congr
    intro i _
    simp
  rw [hsame, filter_range'_of_downward_closed _ _ (text.length - 1)]
  · have hle : pageCut text pageSize p ≤ text.length := by
      unfold pageCut
      have := List.length_filter_le
        (fun i => decide ((verseCounter text i : Int) < pageSize * p))
        (List.range' 0 (text.length - 1))
      simp only [List.length_range'] at this
      omega
    exact filterMap_getElem?_range' text _ hle
  · intro i j hij hj
    simp only [decide_eq_true_eq] at hj ⊢
    have := verseCounter_mono text hij
    omega

theorem pageCut_mono (text : GoString) (pageSize : Int) (hps : 0 < pageSize) {p q : Nat}
    (h : p ≤ q) : pageCut text pageSize p ≤ pageCut text pageSize q := by
  unfold pageCut
  apply List.Sublist.length_le
  apply List.monotone_filter_right
  intro i hi
  simp only [decide_eq_true_eq] at hi ⊢
  have : pageSize * (p : Int) ≤ pageSize * (q : Int) := by
    have : (p : Int) ≤ q := by exact_mod_cast h
    nlinarith
  omega

theorem pageCut_le (text : GoString) (pageSize : Int) (p : Nat) :
    pageCut text pageSize p ≤ text.length - 1 := by
  unfold pageCut
  have := List.length_filter_le
    (fun i => decide ((verseCounter text i : Int) < pageSize * p))
    (List.range' 0 (text.length - 1))
  simpa using this

theorem pageCut_zero (text : GoString) (pageSize : Int) : pageCut text pageSize 0 = 0 := by
  unfold pageCut
  simp

theorem pageCut_of_all (text : GoString) (pageSize : Int) (n : Nat)
    (h : (boundaryCount text : Int) < pageSize * n) :
    pageCut text pageSize n = text.length - 1 := by
  unfold pageCut
  have hall : ((List.range' 0 (text.length - 1)).filter fun i =>
      decide ((verseCounter text i : Int) < pageSize * n))
      = List.range' 0 (text.length - 1) := by
    rw [List.filter_eq_self]
    intro i hi
    rw [List.mem_range'_1] at hi
    have := verseCounter_mono text (show i ≤ text.length by omega)
    unfold boundaryCount at h
    simp only [decide_eq_true_eq]
    omega
  rw [hall, List.length_range']

theorem GetTextByPage_eq_slice (text : GoString) (pageSize : Int) (hps : 0 < pageSize) (p : Nat)
    (hp : 1 ≤ p) (hfit : pageSize * p < 2 ^ 63) :
    GetTextByPage text pageSize p
      = (text.take (pageCut text pageSize p)).drop (pageCut text pageSize (p - 1)) := by
  have hpage := GetTextByPage_of_fits text pageSize (p : Int) hps (by exact_mod_cast hp) hfit
  have hlo : pageSize * ((p : Int) - 1) = pageSize * ((p - 1 : Nat) : Int) := by
    congr 1
    omega
  have happ := pageCharsFrom_append text 0 (pageSize * ((p - 1 : Nat) : Int)) (pageSize * p)
    (by positivity) (by rw [← hlo]; nlinarith) 0 (text.length - 1)
  have h1 := pageChars_eq_take_pageCut text pageSize (p - 1)
  have h2 := pageChars_eq_take_pageCut text pageSize p
  unfold pageChars at h1 h2 hpage
  rw [h1, h2, ← hlo, ← hpage] at happ
  have hmono := pageCut_mono text pageSize hps (show p - 1 ≤ p by omega)
  have hsplit : text.take (pageCut text pageSize p)
      = text.take (pageCut text pageSize (p - 1))
        ++ (text.take (pageCut text pageSize p)).drop (pageCut text pageSize (p - 1)) := by
    conv_lhs => rw [← List.take_append_drop (pageCut text pageSize (p - 1))
      (text.take (pageCut text pageSize p))]
    rw [List.take_take, Nat.min_eq_left hmono]
  rw [hsplit] at happ
  exact List.append_cancel_left happ

theorem GetTextByPage_of_short (text : GoString) (h : text.length ≤ 1) (pageSize page : Int) :
    GetTextByPage text pageSize page = [] := by
  rcases text with _ | ⟨c, _ | ⟨d, rest⟩⟩
  · rfl
  · rfl
  · simp at h


/-- C13 (as stated, refuted): with `pageSize = 2^62` the bounds of page 5 wrap around to those
of page 1, so for the text `"ab"` the pages 1 and 5 both return the byte at position 0: the
pages overlap, and the pages 1 to 5 concatenate to `"aa"`, not to the text without its final
byte, `"a"`. -/
theorem GetTextByPage_pages_overlap_counterexample :
    (0 : Int) < 4611686018427387904 ∧
    GetTextByPage "ab".toList 4611686018427387904 1 = "a".toList ∧
    GetTextByPage "ab".toList 4611686018427387904 5 = "a".toList ∧
    concatPages "ab".toList 4611686018427387904 5 = "aa".toList ∧
    "ab".toList.dropLast = "a".toList := by
  decide

/-- C13 (amended): for `pageSize > 0`, the outputs of `GetTextByPage` for the pages `p ≥ 1`
with `pageSize * p` below 2^63 are consecutive, non-overlapping slices of the text: page `p` is
the slice from `pageCut (p-1)` to `pageCut p`, where `pageCut` starts at 0, does not decrease
and ends before the last byte.  The pages `1 .. n` (with `pageSize * n` below 2^63) concatenate
to the first `pageCut n` bytes, which is exactly the text without its final byte as soon as
`pageSize * n` exceeds the number of blank-line boundaries.  For a text of length 0 or 1 every
page is empty. -/
theorem GetTextByPage_pages_are_consecutive_slices (text : GoString) (pageSize : Int)
    (hps : 0 < pageSize) :
    pageCut text pageSize 0 = 0 ∧
    (∀ p q : Nat, p ≤ q → pageCut text pageSize p ≤ pageCut text pageSize q) ∧
    (∀ p : Nat, pageCut text pageSize p ≤ text.length - 1) ∧
    (∀ p : Nat, 1 ≤ p → pageSize * p < 2 ^ 63 →
      GetTextByPage text pageSize p
        = (text.take (pageCut text pageSize p)).drop (pageCut text pageSize (p - 1))) ∧
    (∀ n : Nat, pageSize * n < 2 ^ 63 →
      concatPages text pageSize n = text.take (pageCut text pageSize n)) ∧
    (∀ n : Nat, pageSize * n < 2 ^ 63 → (boundaryCount text : Int) < pageSize * n →
      concatPages text pageSize n = text.dropLast) ∧
    (text.length ≤ 1 → ∀ ps page : Int, GetTextByPage text ps page = []) := by
  refine ⟨pageCut_zero text pageSize, fun p q h => pageCut_mono text pageSize hps h,
    pageCut_le text pageSize, fun p hp hfit => GetTextByPage_eq_slice text pageSize hps p hp hfit,
    ?_, ?_, fun h ps page => GetTextByPage_of_short text h ps page⟩
  · intro n hfit
    rw [concatPages_eq_pageChars text pageSize hps n hfit, pageChars_eq_take_pageCut]
  · intro n hfit hall
    rw [concatPages_eq_pageChars text pageSize hps n hfit, pageChars_eq_take_pageCut,
      pageCut_of_all text pageSize n hall, List.dropLast_eq_take]

/-- Instance: the three pages of size 1 of `"a\n\nb\n\nc"` concatenate to the text without its
final byte. -/
theorem GetTextByPage_pages_are_consecutive_slices_witness :
    concatPages "a\n\nb\n\nc".toList 1 3 = "a\n\nb\n\nc".toList.dropLast :=
  (GetTextByPage_pages_are_consecutive_slices "a\n\nb\n\nc".toList 1 (by decide)).2.2.2.2.2.1 3
    (by decide) (by decide)


/-! ## Validation comes before the storage port -/

/-- The two outcomes of `GetSongsByFilter` for the record of calls: no call at all and a
validation error or, after every check has passed, one call of the filtered fetch and no
error. -/
theorem GetSongsByFilter_outcomes {σ : Type} (env : Env) (repo : DBInterface σ)
    (filters : Filters) (pageSize page : GoString) (w : World σ) :
    ((GetSongsByFilter env repo filters pageSize page w).2 = w ∧
      ∃ e, (GetSongsByFilter env repo filters pageSize page w).1 = (none, some e) ∧
        e.isValidationError = true) ∨
    (∃ ps p : Int, Atoi page = .ok p ∧ 0 < p ∧ Atoi pageSize = .ok ps ∧ 0 < ps ∧
      yearCheckFails env (dropEmpty filters) = false ∧
      linkCheckFails env (dropEmpty filters) = false ∧
      (GetSongsByFilter env repo filters pageSize page w).1.2 = none ∧
      (GetSongsByFilter env repo filters pageSize page w).2.calls
        = w.calls ++ [Call.GetSongsByFilterDB (dropEmpty filters) ps
            (wrapInt (wrapInt (p - 1) * ps))]) := by
  cases hp : Atoi page with
  | error err => left; simp [GetSongsByFilter, hp, Error.isValidationError]
  | ok p =>
    by_cases hp0 : p ≤ 0
    · left; simp [GetSongsByFilter, hp, hp0, Error.isValidationError]
    · cases hps : Atoi pageSize with
      | error err => left; simp [GetSongsByFilter, hp, hp0, hps, Error.isValidationError]
      | ok ps =>
        by_cases hps0 : ps ≤ 0
        · left; simp [GetSongsByFilter, hp, hp0, hps, hps0, Error.isValidationError]
        · rw [GetSongsByFilter_of_parsed env repo filters pageSize page w ps p hp
            (not_le.mp hp0) hps (not_le.mp hps0)]
          cases hy : yearCheckFails env (dropEmpty filters)
          · cases hl : linkCheckFails env (dropEmpty filters)
            · right
              refine ⟨ps, p, rfl, not_le.mp hp0, rfl, not_le.mp hps0, rfl, rfl, ?_, ?_⟩
              · simp only [Bool.false_eq_true, if_false]
                split <;> rfl
              · simp only [Bool.false_eq_true, if_false]
                split <;> rfl
            · left; simp [Error.isValidationError]
          · left; simp [Error.isValidationError]


/-- C14: whenever `GetSongsByFilter`, `AddSong` or `ChangeSongByID` returns one of the
validation errors (invalid page, invalid page size, invalid year, invalid date, invalid link)
or an id-parse error, the storage port has not been called: the store and the record of calls
are unchanged.  The storage port is reached only after every check has passed.  (The storage
port is one that returns none of those errors itself.) -/
theorem validation_error_leaves_storage_untouched {σ : Type} (env : Env)
    (repo : DBInterface σ) (w : World σ) (hown : repo.returnsOwnErrors) :
    (∀ (filters : Filters) (pageSize page : GoString) (e : Error),
      (GetSongsByFilter env repo filters pageSize page w).1.2 = some e →
      e.isValidationError = true ∧ (GetSongsByFilter env repo filters pageSize page w).2 = w) ∧
    (∀ (song : Song) (e : Error), (AddSong env repo song w).1 = some e →
      e.isValidationError = true → (AddSong env repo song w).2 = w) ∧
    (∀ (songID : GoString) (song : Song) (e : Error),
      (ChangeSongByID env repo songID song w).1 = some e →
      e.isValidationError = true → (ChangeSongByID env repo songID song w).2 = w) ∧
    (∀ (filters : Filters) (pageSize page : GoString),
      (GetSongsByFilter env repo filters pageSize page w).2.calls ≠ w.calls →
      (∃ p : Int, Atoi page = .ok p ∧ 0 < p) ∧ (∃ ps : Int, Atoi pageSize = .ok ps ∧ 0 < ps) ∧
      yearCheckFails env (dropEmpty filters) = false ∧
      linkCheckFails env (dropEmpty filters) = false) ∧
    (∀ song : Song, (AddSong env repo song w).2.calls ≠ w.calls →
      CheckDate song.ReleaseDate = true ∧ CheckLink env song.Link = true) ∧
    (∀ (songID : GoString) (song : Song),
      (ChangeSongByID env repo songID song w).2.calls ≠ w.calls →
      (∃ id : Int, Atoi songID = .ok id) ∧ CheckDate song.ReleaseDate = true ∧
        CheckLink env song.Link = true) := by
  refine ⟨?_, ?_, ?_, ?_, ?_, ?_⟩
  · intro filters pageSize page e he
    rcases GetSongsByFilter_outcomes env repo filters pageSize page w with
      ⟨hw, e', hres, hval⟩ | ⟨ps, p, -, -, -, -, -, -, hnone, -⟩
    · rw [hres] at he
      simp only [Option.some.injEq] at he
      subst he
      exact ⟨hval, hw⟩
    · rw [hnone] at he
      exact absurd he (by simp)
  · intro song e he hval
    unfold AddSong at he ⊢
    cases hd : CheckDate song.ReleaseDate
    · simp [hd]
    · cases hl : CheckLink env song.Link
      · simp [hd, hl]
      · simp only [hd, hl, Bool.not_true, Bool.false_eq_true, if_false] at he
        have := hown.1 song w.db e he
        rw [hval] at this
        exact absurd this (by simp)
  · intro songID song e he hval
    unfold ChangeSongByID at he ⊢
    cases hid : Atoi songID with
    | error err => simp
    | ok id =>
      cases hd : CheckDate song.ReleaseDate
      · simp [hd]
      · cases hl : CheckLink env song.Link
        · simp [hd, hl]
        · simp only [hid, hd, hl, Bool.not_true, Bool.false_eq_true, if_false] at he
          have := hown.2 id song w.db e he
          rw [hval] at this
          exact absurd this (by simp)
  · intro filters pageSize page hcalls
    rcases GetSongsByFilter_outcomes env repo filters pageSize page w with
      ⟨hw, -⟩ | ⟨ps, p, hp, hp0, hps, hps0, hy, hl, -, -⟩
    · rw [hw] at hcalls
      exact absurd rfl hcalls
    · exact ⟨⟨p, hp, hp0⟩, ⟨ps, hps, hps0⟩, hy, hl⟩
  · intro song hcalls
    unfold AddSong at hcalls
    cases hd : CheckDate song.ReleaseDate
    · simp [hd] at hcalls
    · cases hl : CheckLink env song.Link
      · simp [hd, hl] at hcalls
      · exact ⟨rfl, rfl⟩
  · intro songID song hcalls
    unfold ChangeSongByID at hcalls
    cases hid : Atoi songID with
    | error err => simp [hid] at hcalls
    | ok id =>
      cases hd : CheckDate song.ReleaseDate
      · simp [hid, hd] at hcalls
      · cases hl : CheckLink env song.Link
        · simp [hid, hd, hl] at hcalls
        · exact ⟨⟨id, rfl⟩, rfl, rfl⟩

/-- Instance: an update with the unparseable id `x7`, and a create with the date `31.02.2020`,
return their error and leave the store and the record of calls as they were. -/
theorem validation_error_leaves_storage_untouched_witness :
    (ChangeSongByID sampleEnv (stubRepo (sampleSong [] [] []) none none) "x7".toList
        (sampleSong [] "01.01.2020".toList "http://host".toList) ⟨0, []⟩).2 = ⟨0, []⟩ ∧
    (AddSong sampleEnv (stubRepo (sampleSong [] [] []) none none)
        (sampleSong [] "31.02.2020".toList "http://host".toList) ⟨0, []⟩).2 = ⟨0, []⟩ :=
  have hown : (stubRepo (sampleSong [] [] []) none none).returnsOwnErrors :=
    ⟨fun _ _ _ h => absurd h (by simp [stubRepo]), fun _ _ _ _ h => absurd h (by simp [stubRepo])⟩
  have h := validation_error_leaves_storage_untouched sampleEnv
    (stubRepo (sampleSong [] [] []) none none) ⟨0, []⟩ hown
  ⟨h.2.2.1 "x7".toList (sampleSong [] "01.01.2020".toList "http://host".toList)
      (Error.numError "x7".toList) (by decide) (by decide),
   h.2.1 (sampleSong [] "31.02.2020".toList "http://host".toList) Error.invalidDate
      (by decide) (by decide)⟩


/-! ## The year spliced into the query text -/

theorem parseDigits_some {s : GoString} {n : Nat} (h : parseDigits s = some n) :
    s ≠ [] ∧ ∀ c ∈ s, c.isDigit = true := by
  unfold parseDigits at h
  split_ifs at h with h1 h2
  exact ⟨h1, fun c hc => List.all_eq_true.mp h2 c hc⟩

theorem Atoi_ok_isSignedDigits {v : GoString} {y : Int} (h : Atoi v = .ok y) :
    isSignedDigits v := by
  unfold Atoi at h
  simp only at h
  split at h
  · exact absurd h (by simp)
  · rename_i n hn
    split at hn
    · obtain ⟨h1, h2⟩ := parseDigits_some hn
      exact ⟨_, h1, h2, Or.inr (Or.inr rfl)⟩
    · obtain ⟨h1, h2⟩ := parseDigits_some hn
      exact ⟨_, h1, h2, Or.inr (Or.inl rfl)⟩
    · obtain ⟨h1, h2⟩ := parseDigits_some hn
      exact ⟨_, h1, h2, Or.inl rfl⟩

theorem quoteChar_not_mem_of_isSignedDigits {v : GoString} (h : isSignedDigits v) :
    quoteChar ∉ v := by
  obtain ⟨digits, -, hd, hv⟩ := h
  have hq : quoteChar ∉ digits := by
    intro hmem
    have := hd _ hmem
    exact absurd this (by decide)
  rcases hv with rfl | rfl | rfl
  · exact hq
  · simp only [List.mem_cons, not_or]
    exact ⟨by decide, hq⟩
  · simp only [List.mem_cons, not_or]
    exact ⟨by decide, hq⟩

theorem lookup_of_mem_of_nodup_keys (l : Filters) (k v : GoString) (hmem : (k, v) ∈ l)
    (hnd : (l.map Prod.fst).Nodup) : l.lookup k = some v := by
  induction l with
  | nil => simp at hmem
  | cons kv rest ih =>
    obtain ⟨k0, v0⟩ := kv
    simp only [List.map_cons, List.nodup_cons, List.mem_map, not_exists, not_and] at hnd
    rcases List.mem_cons.mp hmem with heq | hrest
    · simp only [Prod.mk.injEq] at heq
      obtain ⟨rfl, rfl⟩ := heq
      simp [List.lookup_cons]
    · have hne : k ≠ k0 := fun e => hnd.1 (k, v) hrest (e ▸ rfl)
      have hb : (k == k0) = false := by simpa using hne
      simp only [List.lookup_cons, hb]
      exact ih hrest hnd.2

theorem release_date_of_passed_year_check (env : Env) (filters : Filters)
    (hkeys : (filters.map Prod.fst).Nodup)
    (hy : yearCheckFails env (dropEmpty filters) = false) (v : GoString)
    (hv : (releaseDateKey, v) ∈ dropEmpty filters) : isSignedDigits v := by
  have hnd : ((dropEmpty filters).map Prod.fst).Nodup :=
    List.Nodup.sublist (List.Sublist.map _ (List.filter_sublist _)) hkeys
  have hl := lookup_of_mem_of_nodup_keys _ _ _ hv hnd
  unfold yearCheckFails at hy
  rw [hl] at hy
  cases ha : Atoi v with
  | error err => simp [ha] at hy
  | ok y => exact Atoi_ok_isSignedDigits ha

theorem predsFrom_mem (filters : Filters) :
    ∀ (k : Nat) (p : Pred), p ∈ predsFrom k filters →
      (∃ key n, p = Pred.eq key n ∧ key ∈ filters.map Prod.fst) ∨
      (∃ v, p = Pred.like releaseDateKey v ∧ (releaseDateKey, v) ∈ filters) := by
  induction filters with
  | nil => intro k p h; simp [predsFrom] at h
  | cons kv rest ih =>
    intro k p h
    obtain ⟨key, v⟩ := kv
    by_cases hk : key = releaseDateKey
    · simp only [predsFrom, hk, if_true, List.mem_cons] at h
      rcases h with rfl | h
      · exact Or.inr ⟨v, rfl, by simp [hk]⟩
      · rcases ih k p h with ⟨key', n, h1, h2⟩ | ⟨v', h1, h2⟩
        · exact Or.inl ⟨key', n, h1, by simp only [List.map_cons, List.mem_cons]; exact Or.inr h2⟩
        · exact Or.inr ⟨v', h1, List.mem_cons_of_mem _ h2⟩
    · simp only [predsFrom, hk, if_false, List.mem_cons] at h
      rcases h with rfl | h
      · exact Or.inl ⟨key, k, rfl, by simp⟩
      · rcases ih (k + 1) p h with ⟨key', n, h1, h2⟩ | ⟨v', h1, h2⟩
        · exact Or.inl ⟨key', n, h1, by simp only [List.map_cons, List.mem_cons]; exact Or.inr h2⟩
        · exact Or.inr ⟨v', h1, List.mem_cons_of_mem _ h2⟩

theorem GetSongsByFilterDBQuery_text (filters : Filters) (limit offset : Int) :
    (GetSongsByFilterDBQuery filters limit offset).1
      = selectText ++
        (if filters = [] then []
          else " WHERE ".toList ++
            List.intercalate " AND ".toList ((predsFrom 1 filters).map Pred.render)) ++
        (" LIMIT $".toList ++ itoa ((eqFilters filters).length + 1) ++ " OFFSET $".toList ++
          itoa ((eqFilters filters).length + 2) ++ ";".toList) := by
  unfold GetSongsByFilterDBQuery
  by_cases hf : filters = []
  · subst hf; simp [eqFilters]
  · have hl : filters.length ≠ 0 := fun h => hf (List.length_eq_zero.mp h)
    have hflat := flatten_map_append_sep " AND ".toList ((predsFrom 1 filters).map Pred.render)
      (by simpa using predsFrom_ne_nil filters 1 hf)
    rw [List.map_map] at hflat
    have hcomp : ((fun p => p ++ " AND ".toList) ∘ Pred.render)
        = fun p : Pred => p.render ++ " AND ".toList := rfl
    rw [hcomp] at hflat
    simp only [hl, ne_eq, not_false_eq_true, if_true, foldl_filterStep, hflat, hf, if_false]
    rw [← List.append_assoc (selectText ++ " WHERE ".toList), TrimSuffix_append,
      Nat.add_comm 1 (eqFilters filters).length]
    simp


/-- C15: in every filter set that `GetSongsByFilter` hands to the storage port, the
`release_date` value, if present, is an optional sign followed by one or more decimal digits
and so contains no quote character.  For every iteration order of that filter set the query
text of `GetSongsByFilterDB` is the fixed template, `SELECT .. FROM songs`, ` WHERE ` with the
predicates joined by ` AND `, ` LIMIT $.. OFFSET $..;`, in which every predicate is `key=$k`
for a filter key and a placeholder number, or `release_date LIKE '%v'` for such a value `v` of
sign and digits. -/
theorem release_date_reaches_storage_as_signed_digits {σ : Type} (env : Env)
    (repo : DBInterface σ) (filters : Filters) (pageSize page : GoString) (w : World σ)
    (fs : Filters) (limit offset : Int) (hkeys : (filters.map Prod.fst).Nodup)
    (hcall : (GetSongsByFilter env repo filters pageSize page w).2.calls
      = w.calls ++ [Call.GetSongsByFilterDB fs limit offset]) :
    (∀ v : GoString, (releaseDateKey, v) ∈ fs → isSignedDigits v ∧ quoteChar ∉ v) ∧
    (∀ order : Filters, order.Perm fs →
      (GetSongsByFilterDBQuery order limit offset).1
        = selectText ++
          (if order = [] then []
            else " WHERE ".toList ++
              List.intercalate " AND ".toList ((predsFrom 1 order).map Pred.render)) ++
          (" LIMIT $".toList ++ itoa ((eqFilters order).length + 1) ++ " OFFSET $".toList ++
            itoa ((eqFilters order).length + 2) ++ ";".toList) ∧
      ∀ p ∈ predsFrom 1 order,
        (∃ key k, p = Pred.eq key k ∧ key ∈ fs.map Prod.fst) ∨
        (∃ v, p = Pred.like releaseDateKey v ∧ isSignedDigits v ∧ quoteChar ∉ v)) := by
  have hfs : fs = dropEmpty filters ∧ yearCheckFails env (dropEmpty filters) = false := by
    rcases GetSongsByFilter_outcomes env repo filters pageSize page w with
      ⟨hw, -⟩ | ⟨ps, p, -, -, -, -, hy, -, -, hc⟩
    · rw [hw] at hcall
      have := congrArg List.length hcall
      simp at this
    · rw [hc] at hcall
      have := List.append_cancel_left hcall
      simp only [List.cons.injEq, Call.GetSongsByFilterDB.injEq, and_true] at this
      exact ⟨this.1.symm, hy⟩
  obtain ⟨rfl, hy⟩ := hfs
  have hval : ∀ v : GoString, (releaseDateKey, v) ∈ dropEmpty filters →
      isSignedDigits v ∧ quoteChar ∉ v := by
    intro v hv
    have := release_date_of_passed_year_check env filters hkeys hy v hv
    exact ⟨this, quoteChar_not_mem_of_isSignedDigits this⟩
  refine ⟨hval, fun order hperm => ⟨GetSongsByFilterDBQuery_text order limit offset, ?_⟩⟩
  intro p hp
  rcases predsFrom_mem order 1 p hp with ⟨key, k, h1, h2⟩ | ⟨v, h1, h2⟩
  · refine Or.inl ⟨key, k, h1, ?_⟩
    rw [List.mem_map] at h2 ⊢
    obtain ⟨kv, hkv, hk⟩ := h2
    exact ⟨kv, hperm.mem_iff.mp hkv, hk⟩
  · have := hval v (hperm.mem_iff.mp h2)
    exact Or.inr ⟨v, h1, this.1, this.2⟩

/-- Instance: the filter set with `release_date = "2009"`, a group and an empty title, listed
with page 1 of size 10 in the year 2026. -/
theorem release_date_reaches_storage_as_signed_digits_witness :
    isSignedDigits "2009".toList ∧ quoteChar ∉ "2009".toList :=
  (release_date_reaches_storage_as_signed_digits sampleEnv
    (stubRepo (sampleSong [] [] []) (some []) none)
    [("group_name".toList, "Muse".toList), ("song_name".toList, []),
      ("release_date".toList, "2009".toList)] "10".toList "1".toList ⟨0, []⟩
    [("group_name".toList, "Muse".toList), ("release_date".toList, "2009".toList)] 10 0
    (by decide) (by decide)).1 "2009".toList (by decide)


/-! ## Placeholders of the query text -/

theorem natDigitChar_isDigit {k : Nat} (h : k < 10) : (Nat.digitChar k).isDigit = true := by
  interval_cases k <;> decide

theorem digitVal_natDigitChar {k : Nat} (h : k < 10) : digitVal (Nat.digitChar k) = k := by
  interval_cases k <;> decide

theorem toDigitsCore_decimal :
    ∀ fuel n : Nat, n < fuel →
      ∃ D : GoString, D ≠ [] ∧ (∀ c ∈ D, c.isDigit = true) ∧
        D.foldl (fun m c => 10 * m + digitVal c) 0 = n ∧
        ∀ ds : GoString, Nat.toDigitsCore 10 fuel n ds = D ++ ds := by
  intro fuel
  induction fuel with
  | zero => intro n h; omega
  | succ f ih =>
    intro n hn
    have hmod : n % 10 < 10 := Nat.mod_lt _ (by norm_num)
    by_cases hq : n / 10 = 0
    · refine ⟨[Nat.digitChar (n % 10)], by simp, ?_, ?_, ?_⟩
      · intro c hc
        simp only [List.mem_singleton] at hc
        rw [hc]; exact natDigitChar_isDigit hmod
      · simp only [List.foldl_cons, List.foldl_nil, digitVal_natDigitChar hmod]
        omega
      · intro ds
        simp [Nat.toDigitsCore, hq]
    · obtain ⟨D, hne, hdig, hval, hcore⟩ := ih (n / 10) (by omega)
      refine ⟨D ++ [Nat.digitChar (n % 10)], by simp, ?_, ?_, ?_⟩
      · intro c hc
        rcases List.mem_append.mp hc with h | h
        · exact hdig c h
        · simp only [List.mem_singleton] at h
          rw [h]; exact natDigitChar_isDigit hmod
      · rw [List.foldl_append, hval]
        simp only [List.foldl_cons, List.foldl_nil, digitVal_natDigitChar hmod]
        omega
      · intro ds
        simp [Nat.toDigitsCore, hq, hcore]

theorem itoa_decimal (k : Nat) :
    itoa k ≠ [] ∧ (∀ c ∈ itoa k, c.isDigit = true) ∧ parseDigits (itoa k) = some k := by
  obtain ⟨D, hne, hdig, hval, hcore⟩ := toDigitsCore_decimal (k + 1) k (by omega)
  have hD : itoa k = D := by
    have := hcore []
    simpa [itoa, Nat.repr, Nat.toDigits, List.asString] using this
  rw [hD]
  refine ⟨hne, hdig, ?_⟩
  unfold parseDigits
  rw [if_neg hne, if_pos (List.all_eq_true.mpr hdig), hval]


theorem placeholdersOf_append_of_not_mem (a b : GoString) (h : '$' ∉ a) :
    placeholdersOf (a ++ b) = placeholdersOf b := by
  induction a with
  | nil => rfl
  | cons c rest ih =>
    simp only [List.mem_cons, not_or] at h
    have hc : c ≠ '$' := fun e => h.1 e.symm
    simp only [List.cons_append, placeholdersOf, hc, if_false]
    exact ih h.2

theorem takeWhile_append_of_all (p : Char → Bool) (a b : GoString)
    (ha : ∀ c ∈ a, p c = true) (hb : ∀ c, b.head? = some c → p c = false) :
    (a ++ b).takeWhile p = a := by
  induction a with
  | nil =>
    cases b with
    | nil => rfl
    | cons d t => simp [List.takeWhile_cons, hb d rfl]
  | cons c rest ih =>
    have hc := ha c (List.mem_cons_self _ _)
    simp only [List.cons_append, List.takeWhile_cons, hc, if_true]
    rw [ih (fun x hx => ha x (List.mem_cons_of_mem _ hx))]

theorem dollar_not_mem_itoa (k : Nat) : '$' ∉ itoa k := by
  intro h
  have := (itoa_decimal k).2.1 _ h
  exact absurd this (by decide)

theorem placeholdersOf_dollar_itoa (k : Nat) (b : GoString)
    (hb : ∀ c, b.head? = some c → c.isDigit = false) :
    placeholdersOf ('$' :: (itoa k ++ b)) = k :: placeholdersOf b := by
  obtain ⟨-, hdig, hparse⟩ := itoa_decimal k
  simp only [placeholdersOf, if_true]
  rw [takeWhile_append_of_all Char.isDigit (itoa k) b hdig hb, hparse]
  simp only
  rw [placeholdersOf_append_of_not_mem _ _ (dollar_not_mem_itoa k)]

/-- Placeholders of a rendered predicate followed by `b`, when its key and value hold no
`$`. -/
theorem placeholdersOf_render_append (p : Pred) (b : GoString)
    (hb : ∀ c, b.head? = some c → c.isDigit = false)
    (hp : match p with
      | .eq key _ => '$' ∉ key
      | .like key value => '$' ∉ key ∧ '$' ∉ value) :
    placeholdersOf (p.render ++ b) = p.placeholder.toList ++ placeholdersOf b := by
  cases p with
  | eq key k =>
    simp only at hp
    have e : (Pred.eq key k).render ++ b = (key ++ ['=']) ++ ('$' :: (itoa k ++ b)) := by
      simp [Pred.render]
    rw [e, placeholdersOf_append_of_not_mem _ _ (by simp [hp]), placeholdersOf_dollar_itoa k b hb]
    rfl
  | like key value =>
    simp only at hp
    have hno : '$' ∉ (Pred.like key value).render := by
      simp only [Pred.render, List.mem_append, not_or]
      exact ⟨⟨⟨hp.1, by decide⟩, hp.2⟩, by decide⟩
    rw [placeholdersOf_append_of_not_mem _ _ hno]
    rfl

theorem placeholdersOf_intercalate_append (ps : List Pred) (b : GoString)
    (hb : ∀ c, b.head? = some c → c.isDigit = false)
    (hps : ∀ p ∈ ps, match p with
      | .eq key _ => '$' ∉ key
      | .like key value => '$' ∉ key ∧ '$' ∉ value) :
    placeholdersOf (List.intercalate " AND ".toList (ps.map Pred.render) ++ b)
      = ps.filterMap Pred.placeholder ++ placeholdersOf b := by
  induction ps with
  | nil => simp [List.intercalate]
  | cons p rest ih =>
    have hp := hps p (List.mem_cons_self _ _)
    have hrest := ih (fun q hq => hps q (List.mem_cons_of_mem _ hq))
    cases rest with
    | nil =>
      have e : List.intercalate " AND ".toList ([p].map Pred.render) ++ b = p.render ++ b := by
        simp [List.intercalate]
      rw [e, placeholdersOf_render_append p b hb hp]
      cases p <;> simp [Pred.placeholder]
    | cons q rest' =>
      have e : List.intercalate " AND ".toList ((p :: q :: rest').map Pred.render) ++ b
          = p.render ++ (" AND ".toList ++
              (List.intercalate " AND ".toList ((q :: rest').map Pred.render) ++ b)) := by
        simp [List.intercalate, List.intersperse]
      rw [e, placeholdersOf_render_append p _ (by intro c hc; simp at hc; subst hc; decide) hp,
        placeholdersOf_append_of_not_mem _ _ (by decide), hrest]
      cases p <;> simp [Pred.placeholder]


theorem placeholdersOf_limit_clause (n : Nat) :
    placeholdersOf (" LIMIT $".toList ++ itoa (n + 1) ++ " OFFSET $".toList ++ itoa (n + 2)
      ++ ";".toList) = [n + 1, n + 2] := by
  have e : " LIMIT $".toList ++ itoa (n + 1) ++ " OFFSET $".toList ++ itoa (n + 2) ++ ";".toList
      = " LIMIT ".toList ++ ('$' :: (itoa (n + 1) ++
          (" OFFSET ".toList ++ ('$' :: (itoa (n + 2) ++ ";".toList))))) := by
    simp
  rw [e, placeholdersOf_append_of_not_mem _ _ (by decide),
    placeholdersOf_dollar_itoa _ _ (by intro c hc; simp at hc; subst hc; decide),
    placeholdersOf_append_of_not_mem _ _ (by decide),
    placeholdersOf_dollar_itoa _ _ (by intro c hc; simp at hc; subst hc; decide)]
  rfl

theorem GetSongsByFilterDBQuery_args (filters : Filters) (limit offset : Int) :
    (GetSongsByFilterDBQuery filters limit offset).2
      = ((eqFilters filters).map fun kv => Arg.str kv.2) ++ [Arg.int limit, Arg.int offset] := by
  unfold GetSongsByFilterDBQuery
  by_cases hf : filters = []
  · subst hf; simp [eqFilters]
  · have hl : filters.length ≠ 0 := fun h => hf (List.length_eq_zero.mp h)
    simp [hl, foldl_filterStep]

theorem placeholdersOf_query (filters : Filters) (limit offset : Int)
    (hfree : ∀ kv ∈ filters, '$' ∉ kv.1 ∧ (kv.1 = releaseDateKey → '$' ∉ kv.2)) :
    placeholdersOf (GetSongsByFilterDBQuery filters limit offset).1
      = List.range' 1 (GetSongsByFilterDBQuery filters limit offset).2.length := by
  rw [GetSongsByFilterDBQuery_text, GetSongsByFilterDBQuery_args]
  have hlen : (((eqFilters filters).map fun kv => Arg.str kv.2)
      ++ [Arg.int limit, Arg.int offset]).length = 2 + (eqFilters filters).length := by
    simp; omega
  have hrange : List.range' 1 (2 + (eqFilters filters).length)
      = List.range' 1 (eqFilters filters).length
        ++ [(eqFilters filters).length + 1, (eqFilters filters).length + 2] := by
    rw [← List.range'_append_1 1 (eqFilters filters).length 2]
    simp only [List.range'_succ, List.range'_zero, List.append_cancel_left_eq, List.cons.injEq,
      and_true]
    omega
  have hhead : ∀ c, (" LIMIT $".toList ++ itoa ((eqFilters filters).length + 1)
      ++ " OFFSET $".toList ++ itoa ((eqFilters filters).length + 2) ++ ";".toList).head?
        = some c → c.isDigit = false := by
    intro c hc
    simp at hc
    subst hc
    decide
  rw [hlen, hrange, List.append_assoc,
    placeholdersOf_append_of_not_mem selectText _ (by decide)]
  by_cases hf : filters = []
  · subst hf
    simp only [if_true, List.nil_append]
    rw [placeholdersOf_limit_clause]
    simp [eqFilters]
  · simp only [hf, if_false]
    rw [List.append_assoc, placeholdersOf_append_of_not_mem _ _ (by decide),
      placeholdersOf_intercalate_append _ _ hhead, placeholdersOf_limit_clause,
      predsFrom_placeholders]
    intro p hp
    rcases predsFrom_mem filters 1 p hp with ⟨key, k, h1, h2⟩ | ⟨v, h1, h2⟩
    · subst h1
      rw [List.mem_map] at h2
      obtain ⟨kv, hkv, hk⟩ := h2
      simp only
      rw [← hk]
      exact (hfree kv hkv).1
    · subst h1
      have := hfree _ h2
      exact ⟨this.1, this.2 rfl⟩


set_option maxRecDepth 100000 in
/-- C10 (as stated, refuted): for the filter set `{release_date: "' OR group_name=$1 OR '1'='"}`
the value is copied into the text, which then holds `$1` twice and `$2` once while there are
two arguments: the placeholders of the text are not `$1 .. $2`, each used once. -/
theorem GetSongsByFilterDB_placeholders_counterexample :
    (GetSongsByFilterDBQuery
        [("release_date".toList, "' OR group_name=$1 OR '1'='".toList)] 10 0).1
      = ("SELECT group_name, song_name, song_text, release_date, link FROM songs" ++
          " WHERE release_date LIKE '%' OR group_name=$1 OR '1'='' LIMIT $1 OFFSET $2;").toList ∧
    (GetSongsByFilterDBQuery
        [("release_date".toList, "' OR group_name=$1 OR '1'='".toList)] 10 0).2
      = [Arg.int 10, Arg.int 0] ∧
    placeholdersOf (GetSongsByFilterDBQuery
        [("release_date".toList, "' OR group_name=$1 OR '1'='".toList)] 10 0).1 = [1, 1, 2] ∧
    placeholdersOf (GetSongsByFilterDBQuery
        [("release_date".toList, "' OR group_name=$1 OR '1'='".toList)] 10 0).1
      ≠ List.range' 1 (GetSongsByFilterDBQuery
        [("release_date".toList, "' OR group_name=$1 OR '1'='".toList)] 10 0).2.length := by
  decide

/-- C10 (amended): for the filter entries in any iteration order and every `limit` and
`offset`, the query text built by `GetSongsByFilterDB` is
`SELECT group_name, song_name, song_text, release_date, link FROM songs`, then, exactly when the
filter set is not empty, ` WHERE ` and one predicate per filter joined by ` AND ` (nothing
trailing), then ` LIMIT $(n+1) OFFSET $(n+2);` with `n` the number of filters other than
`release_date`, the numbers written in decimal.  The `i`-th predicate is
`release_date LIKE '%value'` for the key `release_date` and `key=$k` otherwise, where `k` counts
the filters other than `release_date` up to and including this one, and the value of that
filter is the `k`-th argument.  The arguments are those values in iteration order followed by
`limit` and `offset`, and the placeholders the builder writes are `$1 .. $(number of
arguments)`, each once.  Keys and the `release_date` value are copied into the text as they
are: when none of them holds a `$`, the placeholders of the text are exactly
`$1 .. $(number of arguments)`, each used once. -/
theorem GetSongsByFilterDB_query_shape (filters : Filters) (limit offset : Int) :
    (GetSongsByFilterDBQuery filters limit offset).1
      = "SELECT group_name, song_name, song_text, release_date, link FROM songs".toList ++
        (if filters = [] then []
          else " WHERE ".toList ++
            List.intercalate " AND ".toList ((predsFrom 1 filters).map Pred.render)) ++
        (" LIMIT $".toList ++ itoa ((eqFilters filters).length + 1) ++ " OFFSET $".toList ++
          itoa ((eqFilters filters).length + 2) ++ ";".toList) ∧
    (∀ k : Nat, itoa k ≠ [] ∧ (∀ c ∈ itoa k, c.isDigit = true) ∧
      parseDigits (itoa k) = some k) ∧
    (GetSongsByFilterDBQuery filters limit offset).2
      = ((eqFilters filters).map fun kv => Arg.str kv.2) ++ [Arg.int limit, Arg.int offset] ∧
    (predsFrom 1 filters).length = filters.length ∧
    (∀ (i : Nat) (key v : GoString), filters[i]? = some (key, v) →
      (key = releaseDateKey → (predsFrom 1 filters)[i]? = some (Pred.like key v)) ∧
      (key ≠ releaseDateKey →
        (predsFrom 1 filters)[i]?
          = some (Pred.eq key ((eqFilters (filters.take i)).length + 1)) ∧
        (GetSongsByFilterDBQuery filters limit offset).2[(eqFilters (filters.take i)).length]?
          = some (Arg.str v))) ∧
    (predsFrom 1 filters).filterMap Pred.placeholder ++
        [(eqFilters filters).length + 1, (eqFilters filters).length + 2]
      = List.range' 1 (GetSongsByFilterDBQuery filters limit offset).2.length ∧
    ((∀ kv ∈ filters, '$' ∉ kv.1 ∧ (kv.1 = releaseDateKey → '$' ∉ kv.2)) →
      placeholdersOf (GetSongsByFilterDBQuery filters limit offset).1
        = List.range' 1 (GetSongsByFilterDBQuery filters limit offset).2.length) := by
  have hargs := GetSongsByFilterDBQuery_args filters limit offset
  refine ⟨GetSongsByFilterDBQuery_text filters limit offset, itoa_decimal, hargs,
    predsFrom_length filters 1, ?_, ?_, placeholdersOf_query filters limit offset⟩
  · intro i key v h
    have hp := predsFrom_getElem? filters 1 i key v h
    refine ⟨fun hk => by rw [hp, if_pos hk], fun hk => ⟨?_, ?_⟩⟩
    · rw [hp, if_neg hk, Nat.add_comm]
    · rw [hargs, List.getElem?_append_left]
      · exact eqFilters_value_getElem? filters i key v h hk
      · have := eqFilters_value_getElem? filters i key v h hk
        by_contra hcon
        rw [List.getElem?_eq_none (not_lt.mp hcon)] at this
        exact absurd this (by simp)
  · rw [predsFrom_placeholders, hargs]
    simp only [List.length_append, List.length_map, List.length_cons, List.length_nil]
    rw [show (eqFilters filters).length + (0 + 1 + 1) = 2 + (eqFilters filters).length by omega,
      ← List.range'_append_1 1 (eqFilters filters).length 2]
    simp only [List.range'_succ, List.range'_zero, List.append_cancel_left_eq, List.cons.injEq,
      and_true]
    omega

set_option maxRecDepth 100000 in
/-- Instance: three filters, one of them `release_date`, none with a `$`: the whole text, the
arguments and the placeholders `$1 .. $4`. -/
theorem GetSongsByFilterDB_query_shape_witness :
    (GetSongsByFilterDBQuery
        [("group_name".toList, "Muse".toList), ("release_date".toList, "2009".toList),
          ("link".toList, "http://host".toList)] 10 20).1
      = ("SELECT group_name, song_name, song_text, release_date, link FROM songs" ++
          " WHERE group_name=$1 AND release_date LIKE '%2009' AND link=$2" ++
          " LIMIT $3 OFFSET $4;").toList ∧
    (GetSongsByFilterDBQuery
        [("group_name".toList, "Muse".toList), ("release_date".toList, "2009".toList),
          ("link".toList, "http://host".toList)] 10 20).2
      = [Arg.str "Muse".toList, Arg.str "http://host".toList, Arg.int 10, Arg.int 20] ∧
    placeholdersOf (GetSongsByFilterDBQuery
        [("group_name".toList, "Muse".toList), ("release_date".toList, "2009".toList),
          ("link".toList, "http://host".toList)] 10 20).1 = [1, 2, 3, 4] :=
  have h := GetSongsByFilterDB_query_shape
    [("group_name".toList, "Muse".toList), ("release_date".toList, "2009".toList),
      ("link".toList, "http://host".toList)] 10 20
  ⟨h.1.trans (by decide), h.2.2.1.trans (by decide),
    (h.2.2.2.2.2.2 (by decide)).trans (by decide)⟩

end MusicLib
